import Mathlib

set_option maxRecDepth 10000
set_option maxHeartbeats 2000000

/-!
Verification of the tiered memory engine (`advanced_memory/memory_handler.py`).

This file gives a shallow embedding of the tiered-storage memory engine of the
repository (class `AdvancedMemory` in `src/advanced_memory/memory_handler.py`)
and proves/refutes the frozen claims about it.

Modelling conventions:
* Python `str` is modelled by Lean `String`; Python `len` on a string is the
  number of code points, which matches `String.length`.
* Python `dict` (insertion ordered, unique keys) is modelled by an association
  list `Dict α := List (String × α)`.  Assignment `d[k] = v` updates the value
  in place when `k` is present (keeping its position) and appends `(k, v)`
  otherwise; `pop`/`del` removes the entry.  This matches CPython semantics.
* Timestamps (`datetime.now().timestamp()`, a float) are modelled by `Nat`.
  All comparisons performed by the engine have the shape `now - t < c` or
  `now - t > c` with `c > 0`; truncated `Nat` subtraction gives the same
  truth value as float subtraction whenever `t` may exceed `now`, so this
  model is faithful for every comparison the code performs.
* Each command receives the current time `now : Nat` explicitly; the source
  calls `datetime.now()` several times inside one command, but nothing the
  claims mention depends on sub-command clock drift.
* Filesystem writes, the latency tracker and the `operation_counts` metrics
  dict are side channels never read back by any command path the claims
  mention; they are omitted.  The in-memory tier mappings are the model.
* A Python exception raised inside a handler is modelled by `Except.error`;
  the dispatch boundary (`handle_tool_call`) catches it and renders
  `"Error: " ++ msg`, exactly like the `try/except` in the source.
-/

deriving instance DecidableEq for Except

/-- Association list standing for a Python `dict` with `String` keys. -/
abbrev Dict (α : Type) := List (String × α)

/-- `d[k]` lookup: first entry whose key equals `k`. -/
def dictGet {α : Type} : Dict α → String → Option α
  | [], _ => none
  | (k', v) :: rest, k => if k' = k then some v else dictGet rest k

/-- `d[k] = v`: update in place when present (keeping position), else append. -/
def dictInsert {α : Type} : Dict α → String → α → Dict α
  | [], k, v => [(k, v)]
  | (k', v') :: rest, k, v =>
    if k' = k then (k', v) :: rest else (k', v') :: dictInsert rest k v

/-- `del d[k]` / `d.pop(k)`: remove the entry with key `k`. -/
def dictErase {α : Type} : Dict α → String → Dict α
  | [], _ => []
  | (k', v') :: rest, k => if k' = k then rest else (k', v') :: dictErase rest k

/-- The keys of a dict, in order. -/
def dictKeys {α : Type} (d : Dict α) : List String := d.map Prod.fst

/-- `MemoryTier` enum of the source (`working`, `archival`, `overflow`). -/
inductive MemoryTier : Type where
  | working
  | archival
  | overflow
deriving DecidableEq, Repr

/-- `MemoryTier.value` of the Python enum. -/
def tierValue : MemoryTier → String
  | MemoryTier.working => "working"
  | MemoryTier.archival => "archival"
  | MemoryTier.overflow => "overflow"

/-- `TIER_LIMITS[MemoryTier.WORKING]` (4 KB soft cap). -/
def workingLimit : Nat := 4096

/-- `TIER_LIMITS[MemoryTier.ARCHIVAL]` (100 KB soft cap).
`TIER_LIMITS[OVERFLOW]` is `inf` and is only read by the metrics accessor. -/
def archivalLimit : Nat := 102400

/-- The dataclass default `importance_score = 0.5`, written as an explicit
reduced rational (one half) so that proofs can evaluate block equality. -/
def halfScore : Rat := ⟨1, 2, by decide, Nat.coprime_one_left 2⟩

/-- The `MemoryBlock` dataclass.  `importance_score` is a dead field (never
read by any policy); its float default 0.5 is modelled as a rational. -/
structure MemoryBlock : Type where
  content : String
  tier : MemoryTier
  access_count : Nat := 0
  last_access : Nat := 0
  importance_score : Rat := halfScore
  created_at : Nat := 0
  size_bytes : Nat := 0
deriving DecidableEq, Repr

/-- `MemoryBlock.update_access`: bump the access count and refresh
`last_access` to the current time. -/
def update_access (b : MemoryBlock) (now : Nat) : MemoryBlock :=
  { b with access_count := b.access_count + 1, last_access := now }

/-- The in-memory state of one `AdvancedMemory` instance: the three tier
mappings (`self.memory_blocks`), the access-pattern history, the prediction
set and the reorganization counter. -/
structure AdvancedMemory : Type where
  working : Dict MemoryBlock
  archival : Dict MemoryBlock
  overflow : Dict MemoryBlock
  access_patterns : Dict (List Nat)
  predicted_next : List String
  reorganize_counter : Nat
deriving DecidableEq, Repr

/-- A freshly initialized engine over an empty base directory:
`_load_memories` finds nothing, every mapping starts empty and the
reorganization counter starts at 0. -/
def initState : AdvancedMemory :=
  { working := [], archival := [], overflow := [],
    access_patterns := [], predicted_next := [], reorganize_counter := 0 }

/-- `self.memory_blocks[tier]`. -/
def tierDict (st : AdvancedMemory) : MemoryTier → Dict MemoryBlock
  | MemoryTier.working => st.working
  | MemoryTier.archival => st.archival
  | MemoryTier.overflow => st.overflow

/-- Replace one tier's mapping. -/
def setTierDict (st : AdvancedMemory) : MemoryTier → Dict MemoryBlock → AdvancedMemory
  | MemoryTier.working, d => { st with working := d }
  | MemoryTier.archival, d => { st with archival := d }
  | MemoryTier.overflow, d => { st with overflow := d }

/-- `_validate_path`: strip a leading `"/memories"` then a leading `"/"`,
then flatten remaining separators to `_`. -/
def validate_path (path : String) : String :=
  let p1 := if "/memories".data.isPrefixOf path.data then path.drop 9 else path
  let p2 := if "/".data.isPrefixOf p1.data then p1.drop 1 else p1
  String.mk (p2.data.map (fun c => if c = '/' then '_' else c))

/-- Number of timestamps recorded for `path` lying within the last 300
seconds (the list comprehension inside `_determine_tier`); 0 when the key has
no history, matching the `if path in self.access_patterns` guard. -/
def recentAccessCount (st : AdvancedMemory) (path : String) (now : Nat) : Nat :=
  match dictGet st.access_patterns path with
  | none => 0
  | some ts => (ts.filter (fun t => now - t < 300)).length

/-- `sum(b.size_bytes for b in self.memory_blocks[WORKING].values())`. -/
def workingSize (st : AdvancedMemory) : Nat :=
  (st.working.map (fun p => p.2.size_bytes)).sum

/-- `_determine_tier` (the Placement Policy). -/
def determine_tier (st : AdvancedMemory) (path : String) (content : String)
    (now : Nat) : MemoryTier :=
  let size := content.length
  if 3 < recentAccessCount st path now then MemoryTier.working
  else if size ≤ workingLimit ∧ workingSize st + size ≤ workingLimit then
    MemoryTier.working
  else if size ≤ archivalLimit then MemoryTier.archival
  else MemoryTier.overflow

/-- `_move_between_tiers`: pop from the source tier, retag, insert into the
destination tier (no-op when the key is absent from the source tier).  The
physical file move is omitted per the modelling conventions. -/
def move_between_tiers (st : AdvancedMemory) (path : String)
    (fromT toT : MemoryTier) : AdvancedMemory :=
  match dictGet (tierDict st fromT) path with
  | none => st
  | some block =>
    let st1 := setTierDict st fromT (dictErase (tierDict st fromT) path)
    setTierDict st1 toT (dictInsert (tierDict st1 toT) path { block with tier := toT })

/-- `_find_in_tiers`: consult the prediction fast path (working, archival),
then scan the tiers in enum order (working, archival, overflow). -/
def find_in_tiers (st : AdvancedMemory) (clean_name : String) :
    Option (MemoryTier × MemoryBlock) :=
  let fast :=
    if st.predicted_next.contains clean_name then
      match dictGet st.working clean_name with
      | some b => some (MemoryTier.working, b)
      | none =>
        match dictGet st.archival clean_name with
        | some b => some (MemoryTier.archival, b)
        | none => none
    else none
  match fast with
  | some r => some r
  | none =>
    match dictGet st.working clean_name with
    | some b => some (MemoryTier.working, b)
    | none =>
      match dictGet st.archival clean_name with
      | some b => some (MemoryTier.archival, b)
      | none =>
        match dictGet st.overflow clean_name with
        | some b => some (MemoryTier.overflow, b)
        | none => none

/-- `_predict_next_access`: clear the prediction set; then, for the most
recent access time of `current_path`, add every other key having some
recorded timestamp within 10 seconds of it. -/
def predict_next_access (st : AdvancedMemory) (current_path : String) :
    AdvancedMemory :=
  let base := { st with predicted_next := [] }
  match dictGet st.access_patterns current_path with
  | none => base
  | some times =>
    match times.getLast? with
    | none => base
    | some last_time =>
      { base with
          predicted_next :=
            (st.access_patterns.filter (fun q =>
              q.1 != current_path &&
                q.2.any (fun t => ((t : Int) - (last_time : Int)).natAbs < 10))).map
              Prod.fst }

/-! ## Python string primitives used by the engine -/

/-- Fuel-indexed worker for `str.count`; with `fuel ≥ s.length` the fuel
never runs out, since every recursive call shortens the scanned list.  The
fuel makes the recursion structural so that proofs can evaluate it. -/
def pyCountListF (old : List Char) : Nat → List Char → Nat
  | _, [] => if old = [] then 1 else 0
  | 0, _ :: _ => 0
  | Nat.succ fuel, c :: rest =>
    if old = [] then 1 + pyCountListF old fuel rest
    else if old.isPrefixOf (c :: rest) then
      1 + pyCountListF old fuel (List.drop (old.length - 1) rest)
    else pyCountListF old fuel rest

/-- `s.count(sub)` for lists of characters: number of non-overlapping
occurrences, scanning left to right (CPython semantics, including the
empty-pattern case `s.count("") == len(s) + 1`). -/
def pyCountList (old s : List Char) : Nat := pyCountListF old s.length s

/-- Fuel-indexed worker for `str.replace`; with `fuel ≥ s.length` the fuel
never runs out, since every recursive call shortens the scanned list. -/
def pyReplaceListF (old new : List Char) : Nat → List Char → List Char
  | _, [] => if old = [] then new else []
  | 0, s => s
  | Nat.succ fuel, c :: rest =>
    if old = [] then new ++ c :: pyReplaceListF old new fuel rest
    else if old.isPrefixOf (c :: rest) then
      new ++ pyReplaceListF old new fuel (List.drop (old.length - 1) rest)
    else c :: pyReplaceListF old new fuel rest

/-- `s.replace(old, new)` for lists of characters: replace each
non-overlapping occurrence, scanning left to right (CPython semantics,
including the empty-pattern case `"ab".replace("", "X") == "XaXbX"`). -/
def pyReplaceList (old new s : List Char) : List Char :=
  pyReplaceListF old new s.length s

/-- `s.count(sub)` on strings. -/
def pyCount (s pat : String) : Nat := pyCountList pat.data s.data

/-- `s.replace(old, new)` on strings.  Python's substring test
`old in s` is equivalent to `s.count(old) > 0`. -/
def pyReplace (s old new : String) : String :=
  String.mk (pyReplaceList old.data new.data s.data)

/-- The line-boundary characters recognized by `str.splitlines`. -/
def pyLineBreak (c : Char) : Bool :=
  c == '\n' || c == '\r' || c == '\x0b' || c == '\x0c' || c == '\x1c' ||
    c == '\x1d' || c == '\x1e' || c == '\x85' || c == '\u2028' || c == '\u2029'

/-- Worker for `str.splitlines`: `cur` holds the current line reversed. -/
def splitlinesAux (cur : List Char) : List Char → List String
  | [] => if cur.isEmpty then [] else [String.mk cur.reverse]
  | '\r' :: '\n' :: rest2 => String.mk cur.reverse :: splitlinesAux [] rest2
  | '\r' :: rest => String.mk cur.reverse :: splitlinesAux [] rest
  | c :: rest =>
    if pyLineBreak c then String.mk cur.reverse :: splitlinesAux [] rest
    else splitlinesAux (c :: cur) rest

/-- `s.splitlines()` (keepends false): `"".splitlines() == []`, a trailing
line without a final newline is kept, a trailing newline produces no empty
final line. -/
def pySplitlines (s : String) : List String := splitlinesAux [] s.data

/-- `lst.insert(i, x)`: insert at position `min i (len lst)`. -/
def pyListInsert {α : Type} (i : Nat) (x : α) : List α → List α
  | [] => [x]
  | a :: rest =>
    match i with
    | 0 => x :: a :: rest
    | Nat.succ j => a :: pyListInsert j x rest

/-- Python slice `l[s:e]` for `0 ≤ s` (negative `e` counts from the end). -/
def pySliceFrom {α : Type} (l : List α) (s e : Int) : List α :=
  let n : Int := l.length
  let e2 := if e < 0 then e + n else e
  let e3 := min e2 n
  if e3 ≤ s then [] else (l.take e3.toNat).drop s.toNat

/-- UTF-8 encoded byte length of one code point (`len(s.encode("utf-8"))`
contribution of a single character). -/
def charUtf8Len (c : Char) : Nat :=
  if c.toNat < 128 then 1
  else if c.toNat < 2048 then 2
  else if c.toNat < 65536 then 3
  else 4

/-- UTF-8 encoded byte length of a string, `len(s.encode("utf-8"))`. -/
def utf8Len (s : String) : Nat := (s.data.map charUtf8Len).sum

/-- Python `sorted` comparison on strings: lexicographic by code point. -/
def pyStrLt : List Char → List Char → Bool
  | [], [] => false
  | [], _ :: _ => true
  | _ :: _, [] => false
  | c :: cs, d :: ds => if c = d then pyStrLt cs ds else decide (c < d)

/-- Stable insertion used by `pySorted`. -/
def insertOrd (x : String) : List String → List String
  | [] => [x]
  | y :: rest =>
    if pyStrLt y.data x.data then y :: insertOrd x rest else x :: y :: rest

/-- Python `sorted` on a list of strings (stable, ascending). -/
def pySorted : List String → List String
  | [] => []
  | x :: rest => insertOrd x (pySorted rest)

/-! ## The six commands -/

/-- The emoji tier indicator used in directory listings. -/
def tierIndicator : MemoryTier → String
  | MemoryTier.working => "🔥"
  | MemoryTier.archival => "📚"
  | MemoryTier.overflow => "🧊"

/-- One listing line: `f"{indicator} {name} ({size}B, tier: {tier})"`. -/
def listingItem (t : MemoryTier) (p : String × MemoryBlock) : String :=
  tierIndicator t ++ " " ++ p.1 ++ " (" ++ toString p.2.size_bytes ++
    "B, tier: " ++ tierValue t ++ ")"

/-- The root-directory listing produced by `view("/memories")`. -/
def rootListing (st : AdvancedMemory) : String :=
  let items :=
    st.working.map (listingItem MemoryTier.working) ++
    st.archival.map (listingItem MemoryTier.archival) ++
    st.overflow.map (listingItem MemoryTier.overflow)
  if items = [] then "Directory: /memories\n(empty)"
  else "Directory: /memories\n" ++ String.intercalate "\n" (pySorted items)

/-- Record `now` in `self.access_patterns[clean_name]` (a `defaultdict`:
an absent key starts from the empty list). -/
def recordAccess (st : AdvancedMemory) (clean_name : String) (now : Nat) :
    AdvancedMemory :=
  { st with
      access_patterns :=
        dictInsert st.access_patterns clean_name
          ((dictGet st.access_patterns clean_name).getD [] ++ [now]) }

/-- `view`.  An `Except.error` result models a Python exception escaping the
handler (only the `start, end = view_range` unpacking can raise here); the
message texts are CPython's. -/
def view (st : AdvancedMemory) (now : Nat) (path : String)
    (view_range : Option (List Int)) : Except String String × AdvancedMemory :=
  let clean_name := validate_path path
  if path = "/memories" ∨ path = "" then (Except.ok (rootListing st), st)
  else
    match find_in_tiers st clean_name with
    | none => (Except.ok ("Error: Path does not exist: " ++ path), st)
    | some (tier, block) =>
      let block1 := update_access block now
      let st1 := setTierDict st tier (dictInsert (tierDict st tier) clean_name block1)
      let st2 := recordAccess st1 clean_name now
      let st3 := predict_next_access st2 clean_name
      match view_range with
      | none => (Except.ok block1.content, st3)
      | some vr =>
        match vr with
        | [s, e] =>
          let lines := pySplitlines block1.content
          let start := max 0 (s - 1)
          let endv := min (lines.length : Int) e
          (Except.ok (String.intercalate "\n" (pySliceFrom lines start endv)), st3)
        | _ =>
          (Except.error
            (if vr.length < 2 then
              "not enough values to unpack (expected 2, got " ++
                toString vr.length ++ ")"
            else "too many values to unpack (expected 2)"), st3)

/-- `create`: run the Placement Policy, build a fresh block (dataclass
defaults for the fields not passed) and assign it into the chosen tier's
mapping. -/
def create (st : AdvancedMemory) (now : Nat) (path file_text : String) :
    Except String String × AdvancedMemory :=
  let clean_name := validate_path path
  let tier := determine_tier st clean_name file_text now
  let block : MemoryBlock :=
    { content := file_text, tier := tier, access_count := 0,
      last_access := now, importance_score := halfScore, created_at := now,
      size_bytes := file_text.length }
  let st1 := setTierDict st tier (dictInsert (tierDict st tier) clean_name block)
  (Except.ok ("Created file: " ++ path ++ " (tier: " ++ tierValue tier ++ ")"), st1)

/-- The common tail of `str_replace` and `insert`: store the mutated block
in its current tier, re-run the Placement Policy on the new content and move
the block synchronously when the decision differs. -/
def applyMutation (st : AdvancedMemory) (now : Nat) (clean_name : String)
    (tier : MemoryTier) (block1 : MemoryBlock) : AdvancedMemory :=
  let st1 := setTierDict st tier (dictInsert (tierDict st tier) clean_name block1)
  let new_tier := determine_tier st1 clean_name block1.content now
  if new_tier ≠ tier then move_between_tiers st1 clean_name tier new_tier
  else st1

/-- `str_replace`. -/
def str_replace (st : AdvancedMemory) (now : Nat) (path old_str new_str : String) :
    Except String String × AdvancedMemory :=
  let clean_name := validate_path path
  match find_in_tiers st clean_name with
  | none => (Except.ok ("Error: File does not exist: " ++ path), st)
  | some (tier, block) =>
    if pyCount block.content old_str = 0 then
      (Except.ok "Error: String not found in file", st)
    else
      let count := pyCount block.content old_str
      let content1 := pyReplace block.content old_str new_str
      let block1 :=
        { block with
            content := content1, size_bytes := content1.length,
            access_count := block.access_count + 1, last_access := now }
      (Except.ok ("Replaced " ++ toString count ++ " occurrence(s) in " ++ path),
        applyMutation st now clean_name tier block1)

/-- `insert`. -/
def insert (st : AdvancedMemory) (now : Nat) (path : String)
    (insert_line : Int) (insert_text : String) :
    Except String String × AdvancedMemory :=
  let clean_name := validate_path path
  match find_in_tiers st clean_name with
  | none =>
    if insert_line = 0 then create st now path insert_text
    else
      (Except.ok ("Error: Cannot insert at line " ++ toString insert_line ++
        " in non-existent file"), st)
  | some (tier, block) =>
    let lines := pySplitlines block.content
    if insert_line < 0 then (Except.ok "Error: Line number must be non-negative", st)
    else
      let n := insert_line.toNat
      let lines1 := lines ++ List.replicate (n - lines.length) ""
      let lines2 := pyListInsert n insert_text lines1
      let content1 := String.intercalate "\n" lines2
      let block1 :=
        { block with
            content := content1, size_bytes := content1.length,
            access_count := block.access_count + 1, last_access := now }
      (Except.ok ("Inserted text at line " ++ toString insert_line ++ " in " ++ path),
        applyMutation st now clean_name tier block1)

/-- `delete`: remove the block from its tier and purge access-tracking and
prediction state. -/
def delete (st : AdvancedMemory) (path : String) :
    Except String String × AdvancedMemory :=
  let clean_name := validate_path path
  match find_in_tiers st clean_name with
  | none => (Except.ok ("Error: Path does not exist: " ++ path), st)
  | some (tier, _block) =>
    let st1 := setTierDict st tier (dictErase (tierDict st tier) clean_name)
    let st2 :=
      { st1 with
          access_patterns := dictErase st1.access_patterns clean_name,
          predicted_next := st1.predicted_next.filter (fun x => x != clean_name) }
    (Except.ok ("Deleted file: " ++ path), st2)

/-- `rename`: same tier, new key; transfers the access history. -/
def rename (st : AdvancedMemory) (old_path new_path : String) :
    Except String String × AdvancedMemory :=
  let old_name := validate_path old_path
  let new_name := validate_path new_path
  match find_in_tiers st old_name with
  | none => (Except.ok ("Error: Source path does not exist: " ++ old_path), st)
  | some (tier, block) =>
    if (find_in_tiers st new_name).isSome then
      (Except.ok ("Error: Destination already exists: " ++ new_path), st)
    else
      let st1 := setTierDict st tier (dictErase (tierDict st tier) old_name)
      let st2 := setTierDict st1 tier (dictInsert (tierDict st1 tier) new_name block)
      let st3 :=
        match dictGet st2.access_patterns old_name with
        | some ts =>
          { st2 with
              access_patterns :=
                dictInsert (dictErase st2.access_patterns old_name) new_name ts }
        | none => st2
      (Except.ok ("Renamed " ++ old_path ++ " to " ++ new_path), st3)

/-! ## The Reorganizer -/

/-- Pass 1 of `_reorganize_memories`: promote hot archival blocks to working
when space allows, iterating over a snapshot of the archival mapping. -/
def promotePass (now : Nat) (st : AdvancedMemory) : AdvancedMemory :=
  st.archival.foldl
    (fun s p =>
      if 5 < p.2.access_count ∧ now - p.2.last_access < 300 then
        if workingSize s + p.2.size_bytes ≤ workingLimit then
          move_between_tiers s p.1 MemoryTier.archival MemoryTier.working
        else s
      else s)
    st

/-- Pass 2: demote working blocks idle for more than 600 seconds. -/
def demotePass (now : Nat) (st : AdvancedMemory) : AdvancedMemory :=
  st.working.foldl
    (fun s p =>
      if 600 < now - p.2.last_access then
        move_between_tiers s p.1 MemoryTier.working MemoryTier.archival
      else s)
    st

/-- Pass 3: archive archival blocks idle for more than 3600 seconds to
overflow (the snapshot is taken after pass 2). -/
def archivePass (now : Nat) (st : AdvancedMemory) : AdvancedMemory :=
  st.archival.foldl
    (fun s p =>
      if 3600 < now - p.2.last_access then
        move_between_tiers s p.1 MemoryTier.archival MemoryTier.overflow
      else s)
    st

/-- `_reorganize_memories`: the three passes in order. -/
def reorganize_memories (st : AdvancedMemory) (now : Nat) : AdvancedMemory :=
  archivePass now (demotePass now (promotePass now st))

/-- `self.reorganize_threshold`. -/
def reorganize_threshold : Nat := 10

/-- `_reorganize_if_needed`: bump the counter; at the threshold run a full
reorganization and reset. -/
def reorganize_if_needed (st : AdvancedMemory) (now : Nat) : AdvancedMemory :=
  let st1 := { st with reorganize_counter := st.reorganize_counter + 1 }
  if reorganize_threshold ≤ st1.reorganize_counter then
    { reorganize_memories st1 now with reorganize_counter := 0 }
  else st1

/-! ## The Command Dispatcher -/

/-- One tool-call input: the `command` field plus the command-specific
fields, each possibly absent.  Field types follow the documented schema. -/
structure ToolInput : Type where
  command : Option String := none
  path : Option String := none
  file_text : Option String := none
  old_str : Option String := none
  new_str : Option String := none
  insert_line : Option Int := none
  insert_text : Option String := none
  old_path : Option String := none
  new_path : Option String := none
  view_range : Option (List Int) := none
deriving DecidableEq, Repr

/-- Python falsiness of an optional string field (`not path` is true for
both a missing field and an empty string). -/
def falsyStr : Option String → Bool
  | none => true
  | some s => s == ""

/-- `_handle_view`: `path` defaults to `"/memories"`. -/
def handle_view (st : AdvancedMemory) (now : Nat) (inp : ToolInput) :
    Except String String × AdvancedMemory :=
  view st now (inp.path.getD "/memories") inp.view_range

/-- `_handle_create`. -/
def handle_create (st : AdvancedMemory) (now : Nat) (inp : ToolInput) :
    Except String String × AdvancedMemory :=
  if falsyStr inp.path then (Except.ok "Error: No path specified", st)
  else create st now (inp.path.getD "") (inp.file_text.getD "")

/-- `_handle_str_replace` (`old_str`/`new_str` only need to be present). -/
def handle_str_replace (st : AdvancedMemory) (now : Nat) (inp : ToolInput) :
    Except String String × AdvancedMemory :=
  if falsyStr inp.path || inp.old_str.isNone || inp.new_str.isNone then
    (Except.ok "Error: Missing required parameters", st)
  else str_replace st now (inp.path.getD "") (inp.old_str.getD "") (inp.new_str.getD "")

/-- `_handle_insert` (`insert_text` defaults to the empty string). -/
def handle_insert (st : AdvancedMemory) (now : Nat) (inp : ToolInput) :
    Except String String × AdvancedMemory :=
  if falsyStr inp.path || inp.insert_line.isNone then
    (Except.ok "Error: Missing required parameters", st)
  else insert st now (inp.path.getD "") (inp.insert_line.getD 0) (inp.insert_text.getD "")

/-- `_handle_delete`. -/
def handle_delete (st : AdvancedMemory) (_now : Nat) (inp : ToolInput) :
    Except String String × AdvancedMemory :=
  if falsyStr inp.path then (Except.ok "Error: No path specified", st)
  else delete st (inp.path.getD "")

/-- `_handle_rename`. -/
def handle_rename (st : AdvancedMemory) (_now : Nat) (inp : ToolInput) :
    Except String String × AdvancedMemory :=
  if falsyStr inp.old_path || falsyStr inp.new_path then
    (Except.ok "Error: Both paths required", st)
  else rename st (inp.old_path.getD "") (inp.new_path.getD "")

/-- The handler table of `handle_tool_call` as a partial dispatch. -/
def dispatchHandler (cmd : String) (st : AdvancedMemory) (now : Nat)
    (inp : ToolInput) : Option (Except String String × AdvancedMemory) :=
  if cmd = "view" then some (handle_view st now inp)
  else if cmd = "create" then some (handle_create st now inp)
  else if cmd = "str_replace" then some (handle_str_replace st now inp)
  else if cmd = "insert" then some (handle_insert st now inp)
  else if cmd = "delete" then some (handle_delete st now inp)
  else if cmd = "rename" then some (handle_rename st now inp)
  else none

/-- `handle_tool_call`: validate the command, dispatch, run the periodic
reorganization after a normally-returning handler, and convert an escaped
exception to an `"Error: ..."` string at this boundary. -/
def handle_tool_call (st : AdvancedMemory) (now : Nat) (inp : ToolInput) :
    String × AdvancedMemory :=
  match inp.command with
  | none => ("Error: No command specified", st)
  | some cmd =>
    if cmd = "" then ("Error: No command specified", st)
    else
      match dispatchHandler cmd st now inp with
      | none => ("Error: Unknown command '" ++ cmd ++ "'", st)
      | some (Except.ok r, st1) => (r, reorganize_if_needed st1 now)
      | some (Except.error e, st1) => ("Error: " ++ e, st1)

/-- Run a sequence of timestamped tool calls. -/
def runCommands (st : AdvancedMemory) : List (Nat × ToolInput) → AdvancedMemory
  | [] => st
  | (now, inp) :: rest => runCommands (handle_tool_call st now inp).2 rest

/-! ## Well-formedness: unique keys per tier and cross-tier exclusivity -/

/-- Key `k` lies in at most one tier's mapping of `st`. -/
def ExclusiveAt (st : AdvancedMemory) (k : String) : Prop :=
  ((dictGet st.working k).isSome →
    dictGet st.archival k = none ∧ dictGet st.overflow k = none) ∧
  ((dictGet st.archival k).isSome → dictGet st.overflow k = none)

/-- Cross-tier uniqueness: every key is in at most one tier's mapping. -/
def Exclusive (st : AdvancedMemory) : Prop := ∀ k, ExclusiveAt st k

/-- Well-formed engine state: each tier mapping has pairwise-distinct keys
(true of any Python dict) and tier exclusivity holds. -/
def WF (st : AdvancedMemory) : Prop :=
  (dictKeys st.working).Nodup ∧ (dictKeys st.archival).Nodup ∧
    (dictKeys st.overflow).Nodup ∧ Exclusive st

/-- Executable exclusivity check over the finitely many stored keys. -/
def exclusiveB (st : AdvancedMemory) : Bool :=
  st.working.all (fun p =>
    (dictGet st.archival p.1).isNone && (dictGet st.overflow p.1).isNone) &&
  st.archival.all (fun p => (dictGet st.overflow p.1).isNone)

/-- Executable well-formedness check. -/
def wfB (st : AdvancedMemory) : Bool :=
  decide (dictKeys st.working).Nodup && decide (dictKeys st.archival).Nodup &&
    decide (dictKeys st.overflow).Nodup && exclusiveB st

/-- The three tiers in enum order. -/
def tierList : List MemoryTier :=
  [MemoryTier.working, MemoryTier.archival, MemoryTier.overflow]

/-- A tool call is a *safe create* in `st` when it is not a create at all, or
its key is absent from every tier, or the Placement Policy sends the new
content to the very tier currently holding the key.  (An unsafe create is
exactly the situation that breaks tier exclusivity.) -/
def createSafeB (st : AdvancedMemory) (now : Nat) (inp : ToolInput) : Bool :=
  if inp.command = some "create" then
    if falsyStr inp.path then true
    else
      let clean := validate_path (inp.path.getD "")
      let text := inp.file_text.getD ""
      tierList.all (fun τ => !(dictGet (tierDict st τ) clean).isSome ||
        decide (determine_tier st clean text now = τ))
  else true

/-- A command trace all of whose creates are safe at their execution state. -/
def safeTrace : AdvancedMemory → List (Nat × ToolInput) → Bool
  | _, [] => true
  | st, (now, inp) :: rest =>
    createSafeB st now inp && safeTrace (handle_tool_call st now inp).2 rest

/-! ### Concrete inputs and states used by witnesses and counterexamples -/

/-- A `create` tool call. -/
def mkCreate (p t : String) : ToolInput :=
  { command := some "create", path := some p, file_text := some t }

/-- A `view` tool call. -/
def mkView (p : String) : ToolInput :=
  { command := some "view", path := some p }

/-- A `str_replace` tool call. -/
def mkRepl (p o n : String) : ToolInput :=
  { command := some "str_replace", path := some p, old_str := some o,
    new_str := some n }

/-- Counterexample trace for tier exclusivity: create `k` (lands in
working), demote it to archival via nine misses that trigger the
reorganizer, heat the key with four views, then create `k` again — the
access-frequency rule now places the new block in working while the old
block stays in archival. -/
def dupTrace : List (Nat × ToolInput) :=
  (1000, mkCreate "/k" "ab") ::
    (List.replicate 9 (2000, mkView "/z") ++
      (List.replicate 4 (2000, mkView "/k") ++ [(2004, mkCreate "/k" "zz")]))

/-- A benign trace whose creates are all safe. -/
def benignTrace : List (Nat × ToolInput) :=
  [(0, mkCreate "/a" "hi"), (1, mkView "/a"), (2, mkRepl "/a" "hi" "ho")]

/-- Ten commands that leave `k` in the overflow tier: create `k` at time
1000, then nine misses at time 5000; the tenth command triggers a
reorganization that demotes `k` (idle 4000 s > 600 s) to archival and, in
the same run, archives it (idle beyond 3600 s) to overflow. -/
def overflowTrace : List (Nat × ToolInput) :=
  (1000, mkCreate "/k" "ab") :: List.replicate 9 (5000, mkView "/z")

/-- The state reached by `overflowTrace`. -/
def overflowMid : AdvancedMemory := runCommands initState overflowTrace

/-- One-create state holding `k ↦ "aabb"` in working (created at 0). -/
def aabbState : AdvancedMemory := runCommands initState [(0, mkCreate "/k" "aabb")]

/-- A 4000-byte block resident in working. -/
def big4000Block : MemoryBlock :=
  { content := "x", tier := MemoryTier.working, access_count := 0,
    last_access := 0, importance_score := halfScore, created_at := 0,
    size_bytes := 4000 }

/-- A working tier holding exactly 4000 bytes. -/
def full4000 : AdvancedMemory :=
  { working := [("big", big4000Block)], archival := [], overflow := [],
    access_patterns := [], predicted_next := [], reorganize_counter := 0 }

/-- A 500-character content. -/
def text500 : String := String.mk (List.replicate 500 'y')

/-- A block of content `"hi"` in working, last accessed at time 0. -/
def idleWorkingBlock : MemoryBlock :=
  { content := "hi", tier := MemoryTier.working, access_count := 0,
    last_access := 0, importance_score := halfScore, created_at := 0,
    size_bytes := 2 }

/-- A working-tier state with one block last accessed at time 0. -/
def idleWorking : AdvancedMemory :=
  { working := [("k", idleWorkingBlock)],
    archival := [], overflow := [], access_patterns := [],
    predicted_next := [], reorganize_counter := 0 }

/-- A small block of content `"ab"` in overflow, last accessed at time 0. -/
def idleOverflowBlock : MemoryBlock :=
  { content := "ab", tier := MemoryTier.overflow, access_count := 0,
    last_access := 0, importance_score := halfScore, created_at := 0,
    size_bytes := 2 }

/-- An overflow-tier state with one small block. -/
def idleOverflow : AdvancedMemory :=
  { working := [], archival := [],
    overflow := [("k", idleOverflowBlock)],
    access_patterns := [], predicted_next := [], reorganize_counter := 0 }

/-- A working-tier state with a two-line file `A\nB`. -/
def twoLineState : AdvancedMemory :=
  (create initState 0 "/f" "A\nB").2

/-- The block stored by `twoLineState`. -/
def twoLineBlock : MemoryBlock :=
  { content := "A\nB", tier := MemoryTier.working, access_count := 0,
    last_access := 0, importance_score := halfScore, created_at := 0,
    size_bytes := 3 }

/-- The block stored by `aabbState`. -/
def aabbBlock : MemoryBlock :=
  { content := "aabb", tier := MemoryTier.working, access_count := 0,
    last_access := 0, importance_score := halfScore, created_at := 0,
    size_bytes := 4 }


/-! ## Dictionary lemmas -/

theorem dictGet_insert_self {α : Type} (d : Dict α) (k : String) (v : α) :
    dictGet (dictInsert d k v) k = some v := by
  induction d with
  | nil => simp [dictInsert, dictGet]
  | cons p rest ih =>
    obtain ⟨k', v'⟩ := p
    by_cases h : k' = k
    · simp [dictInsert, dictGet, h]
    · simp [dictInsert, dictGet, h, ih]

theorem dictGet_insert_ne {α : Type} (d : Dict α) (k k' : String) (v : α)
    (h : k' ≠ k) : dictGet (dictInsert d k v) k' = dictGet d k' := by
  induction d with
  | nil =>
    have h' : ¬ k = k' := fun hh => h hh.symm
    simp [dictInsert, dictGet, h']
  | cons p rest ih =>
    obtain ⟨k'', v''⟩ := p
    by_cases h2 : k'' = k
    · subst h2
      have h' : ¬ k'' = k' := fun hh => h hh.symm
      simp [dictInsert, dictGet, h']
    · simp [dictInsert, dictGet, h2, ih]

theorem dictGet_erase_ne {α : Type} (d : Dict α) (k k' : String)
    (h : k' ≠ k) : dictGet (dictErase d k) k' = dictGet d k' := by
  induction d with
  | nil => simp [dictErase, dictGet]
  | cons p rest ih =>
    obtain ⟨k'', v''⟩ := p
    by_cases h2 : k'' = k
    · subst h2
      have h' : ¬ k'' = k' := fun hh => h hh.symm
      simp [dictErase, dictGet, h']
    · simp [dictErase, dictGet, h2, ih]

theorem dictGet_mem {α : Type} {d : Dict α} {k : String} {v : α}
    (h : dictGet d k = some v) : (k, v) ∈ d := by
  induction d with
  | nil => simp [dictGet] at h
  | cons p rest ih =>
    obtain ⟨k', v'⟩ := p
    by_cases h2 : k' = k
    · subst h2
      simp [dictGet] at h
      simp [h]
    · simp [dictGet, h2] at h
      exact List.mem_cons_of_mem _ (ih h)

theorem mem_dictGet_isSome {α : Type} {d : Dict α} {p : String × α}
    (h : p ∈ d) : (dictGet d p.1).isSome := by
  induction d with
  | nil => simp at h
  | cons q rest ih =>
    obtain ⟨k', v'⟩ := q
    rcases List.mem_cons.mp h with h1 | h1
    · subst h1
      simp [dictGet]
    · by_cases h2 : k' = p.1
      · simp [dictGet, h2]
      · simp only [dictGet, if_neg h2]
        exact ih h1

theorem dictGet_erase_self {α : Type} {d : Dict α} (k : String)
    (hnd : (dictKeys d).Nodup) : dictGet (dictErase d k) k = none := by
  induction d with
  | nil => simp [dictErase, dictGet]
  | cons p rest ih =>
    obtain ⟨k', v'⟩ := p
    simp only [dictKeys, List.map_cons, List.nodup_cons] at hnd
    by_cases h2 : k' = k
    · subst h2
      cases hh : dictGet rest k' with
      | none => simpa [dictErase] using hh
      | some v =>
        exact absurd (List.mem_map_of_mem Prod.fst (dictGet_mem hh)) hnd.1
    · simp only [dictErase, if_neg h2, dictGet, if_neg h2]
      exact ih hnd.2

theorem dictKeys_insert_sub {α : Type} (d : Dict α) (k k' : String) (v : α)
    (h : k' ∈ dictKeys (dictInsert d k v)) : k' ∈ dictKeys d ∨ k' = k := by
  induction d with
  | nil =>
    simp only [dictInsert, dictKeys, List.map_cons, List.map_nil,
      List.mem_singleton] at h
    exact Or.inr h
  | cons p rest ih =>
    obtain ⟨k'', v''⟩ := p
    by_cases h2 : k'' = k
    · simp only [dictInsert, if_pos h2, dictKeys, List.map_cons, List.mem_cons] at h
      simp only [dictKeys, List.map_cons, List.mem_cons]
      tauto
    · simp only [dictInsert, if_neg h2, dictKeys, List.map_cons, List.mem_cons] at h
      simp only [dictKeys, List.map_cons, List.mem_cons]
      rcases h with h | h
      · exact Or.inl (Or.inl h)
      · rcases ih h with h3 | h3
        · exact Or.inl (Or.inr h3)
        · exact Or.inr h3

theorem dictKeys_insert_nodup {α : Type} (d : Dict α) (k : String) (v : α)
    (h : (dictKeys d).Nodup) : (dictKeys (dictInsert d k v)).Nodup := by
  induction d with
  | nil => simp [dictInsert, dictKeys]
  | cons p rest ih =>
    obtain ⟨k', v'⟩ := p
    simp only [dictKeys, List.map_cons, List.nodup_cons] at h
    by_cases h2 : k' = k
    · simp only [dictInsert, if_pos h2, dictKeys, List.map_cons, List.nodup_cons]
      exact h
    · simp only [dictInsert, if_neg h2, dictKeys, List.map_cons, List.nodup_cons]
      refine ⟨fun hm => ?_, ih h.2⟩
      rcases dictKeys_insert_sub rest k k' v hm with h3 | h3
      · exact h.1 h3
      · exact h2 h3

theorem dictKeys_erase_sublist {α : Type} (d : Dict α) (k : String) :
    (dictKeys (dictErase d k)).Sublist (dictKeys d) := by
  induction d with
  | nil => simp [dictErase, dictKeys]
  | cons p rest ih =>
    obtain ⟨k', v'⟩ := p
    by_cases h2 : k' = k
    · simp only [dictErase, if_pos h2, dictKeys, List.map_cons]
      exact List.Sublist.cons _ (List.Sublist.refl _)
    · simp only [dictErase, if_neg h2, dictKeys, List.map_cons]
      exact List.Sublist.cons₂ _ ih

theorem dictKeys_erase_nodup {α : Type} (d : Dict α) (k : String)
    (h : (dictKeys d).Nodup) : (dictKeys (dictErase d k)).Nodup :=
  (dictKeys_erase_sublist d k).nodup h

/-! ## Tier-dictionary and move lemmas -/

theorem tierDict_set_same (st : AdvancedMemory) (t : MemoryTier)
    (d : Dict MemoryBlock) : tierDict (setTierDict st t d) t = d := by
  cases t <;> rfl

theorem tierDict_set_ne (st : AdvancedMemory) (t t' : MemoryTier)
    (d : Dict MemoryBlock) (h : t' ≠ t) :
    tierDict (setTierDict st t' d) t = tierDict st t := by
  cases t <;> cases t' <;> first | rfl | exact absurd rfl h

theorem setTierDict_access_patterns (st : AdvancedMemory) (t : MemoryTier)
    (d : Dict MemoryBlock) :
    (setTierDict st t d).access_patterns = st.access_patterns := by
  cases t <;> rfl

theorem setTierDict_predicted_next (st : AdvancedMemory) (t : MemoryTier)
    (d : Dict MemoryBlock) :
    (setTierDict st t d).predicted_next = st.predicted_next := by
  cases t <;> rfl

theorem setTierDict_reorganize_counter (st : AdvancedMemory) (t : MemoryTier)
    (d : Dict MemoryBlock) :
    (setTierDict st t d).reorganize_counter = st.reorganize_counter := by
  cases t <;> rfl

theorem move_access_patterns (st : AdvancedMemory) (p : String)
    (f t : MemoryTier) :
    (move_between_tiers st p f t).access_patterns = st.access_patterns := by
  unfold move_between_tiers
  cases dictGet (tierDict st f) p <;>
    simp [setTierDict_access_patterns]

theorem move_predicted_next (st : AdvancedMemory) (p : String)
    (f t : MemoryTier) :
    (move_between_tiers st p f t).predicted_next = st.predicted_next := by
  unfold move_between_tiers
  cases dictGet (tierDict st f) p <;>
    simp [setTierDict_predicted_next]

theorem move_reorganize_counter (st : AdvancedMemory) (p : String)
    (f t : MemoryTier) :
    (move_between_tiers st p f t).reorganize_counter = st.reorganize_counter := by
  unfold move_between_tiers
  cases dictGet (tierDict st f) p <;>
    simp [setTierDict_reorganize_counter]

/-- A tier move never changes lookups of other keys, in any tier. -/
theorem move_get_other (st : AdvancedMemory) (p k : String) (f t : MemoryTier)
    (h : k ≠ p) (τ : MemoryTier) :
    dictGet (tierDict (move_between_tiers st p f t) τ) k =
      dictGet (tierDict st τ) k := by
  unfold move_between_tiers
  cases hb : dictGet (tierDict st f) p with
  | none => rfl
  | some b =>
    by_cases ht : τ = t
    · subst ht
      rw [tierDict_set_same, dictGet_insert_ne _ _ _ _ h]
      by_cases hf : τ = f
      · subst hf
        rw [tierDict_set_same, dictGet_erase_ne _ _ _ h]
      · rw [tierDict_set_ne _ _ _ _ (fun hh => hf hh.symm)]
    · rw [tierDict_set_ne _ _ _ _ (fun hh => ht hh.symm)]
      by_cases hf : τ = f
      · subst hf
        rw [tierDict_set_same, dictGet_erase_ne _ _ _ h]
      · rw [tierDict_set_ne _ _ _ _ (fun hh => hf hh.symm)]

/-- A no-op move: absent key. -/
theorem move_of_absent (st : AdvancedMemory) (p : String) (f t : MemoryTier)
    (h : dictGet (tierDict st f) p = none) :
    move_between_tiers st p f t = st := by
  unfold move_between_tiers
  rw [h]

/-- Characterization of a real move for the moved key itself. -/
theorem move_get_self (st : AdvancedMemory) (p : String) (f t : MemoryTier)
    {b : MemoryBlock} (hb : dictGet (tierDict st f) p = some b)
    (hnd : (dictKeys (tierDict st f)).Nodup) :
    dictGet (tierDict (move_between_tiers st p f t) t) p =
      some { b with tier := t } ∧
    (f ≠ t → dictGet (tierDict (move_between_tiers st p f t) f) p = none) ∧
    (∀ τ, τ ≠ t → τ ≠ f →
      dictGet (tierDict (move_between_tiers st p f t) τ) p =
        dictGet (tierDict st τ) p) := by
  unfold move_between_tiers
  rw [hb]
  refine ⟨?_, ?_, ?_⟩
  · rw [tierDict_set_same, dictGet_insert_self]
  · intro hft
    rw [tierDict_set_ne _ _ _ _ (fun hh => hft hh.symm), tierDict_set_same,
      dictGet_erase_self _ hnd]
  · intro τ hτt hτf
    rw [tierDict_set_ne _ _ _ _ (fun hh => hτt hh.symm),
      tierDict_set_ne _ _ _ _ (fun hh => hτf hh.symm)]

/-- Moves preserve per-tier key uniqueness. -/
theorem move_nodup (st : AdvancedMemory) (p : String) (f t τ : MemoryTier)
    (h : (dictKeys (tierDict st τ)).Nodup) :
    (dictKeys (tierDict (move_between_tiers st p f t) τ)).Nodup := by
  unfold move_between_tiers
  cases hb : dictGet (tierDict st f) p with
  | none => exact h
  | some b =>
    by_cases ht : τ = t
    · subst ht
      rw [tierDict_set_same]
      apply dictKeys_insert_nodup
      by_cases hf : τ = f
      · subst hf
        rw [tierDict_set_same]
        exact dictKeys_erase_nodup _ _ h
      · rw [tierDict_set_ne _ _ _ _ (fun hh => hf hh.symm)]
        exact h
    · rw [tierDict_set_ne _ _ _ _ (fun hh => ht hh.symm)]
      by_cases hf : τ = f
      · subst hf
        rw [tierDict_set_same]
        exact dictKeys_erase_nodup _ _ h
      · rw [tierDict_set_ne _ _ _ _ (fun hh => hf hh.symm)]
        exact h

/-! ## Exclusivity preservation -/

theorem tierDict_working (st : AdvancedMemory) :
    tierDict st MemoryTier.working = st.working := rfl

theorem tierDict_archival (st : AdvancedMemory) :
    tierDict st MemoryTier.archival = st.archival := rfl

theorem tierDict_overflow (st : AdvancedMemory) :
    tierDict st MemoryTier.overflow = st.overflow := rfl

theorem exclusiveAt_congr {st st' : AdvancedMemory} {k : String}
    (h : ∀ τ, dictGet (tierDict st' τ) k = dictGet (tierDict st τ) k)
    (he : ExclusiveAt st k) : ExclusiveAt st' k := by
  obtain ⟨h1, h2⟩ := he
  refine ⟨fun hs => ?_, fun hs => ?_⟩
  · rw [show st'.working = tierDict st' MemoryTier.working from rfl,
      h MemoryTier.working] at hs
    obtain ⟨ha, ho⟩ := h1 hs
    exact ⟨(h MemoryTier.archival).trans ha, (h MemoryTier.overflow).trans ho⟩
  · rw [show st'.archival = tierDict st' MemoryTier.archival from rfl,
      h MemoryTier.archival] at hs
    exact (h MemoryTier.overflow).trans (h2 hs)

theorem exclusiveAt_of_unique {st : AdvancedMemory} {p : String}
    (t : MemoryTier) (h : ∀ τ, τ ≠ t → dictGet (tierDict st τ) p = none) :
    ExclusiveAt st p := by
  have hw := fun hh => (tierDict_working st) ▸ h MemoryTier.working hh
  have ha := fun hh => (tierDict_archival st) ▸ h MemoryTier.archival hh
  have ho := fun hh => (tierDict_overflow st) ▸ h MemoryTier.overflow hh
  cases t with
  | working =>
    refine ⟨fun _ => ⟨ha (by decide), ho (by decide)⟩, fun hs => ?_⟩
    rw [ha (by decide)] at hs
    simp at hs
  | archival =>
    refine ⟨fun hs => ?_, fun _ => ho (by decide)⟩
    rw [hw (by decide)] at hs
    simp at hs
  | overflow =>
    refine ⟨fun hs => ?_, fun hs => ?_⟩
    · rw [hw (by decide)] at hs
      simp at hs
    · rw [ha (by decide)] at hs
      simp at hs

theorem ExclusiveAt.get_ne_none {st : AdvancedMemory} {p : String}
    (h : ExclusiveAt st p) {f : MemoryTier} {b : MemoryBlock}
    (hb : dictGet (tierDict st f) p = some b) :
    ∀ τ, τ ≠ f → dictGet (tierDict st τ) p = none := by
  obtain ⟨h1, h2⟩ := h
  intro τ hτ
  cases f with
  | working =>
    rw [tierDict_working] at hb
    obtain ⟨ha, ho⟩ := h1 (by rw [hb]; rfl)
    cases τ with
    | working => exact absurd rfl hτ
    | archival => exact ha
    | overflow => exact ho
  | archival =>
    rw [tierDict_archival] at hb
    have ho := h2 (by rw [hb]; rfl)
    cases τ with
    | working =>
      rw [tierDict_working]
      cases hw : dictGet st.working p with
      | none => rfl
      | some bw =>
        obtain ⟨ha, _⟩ := h1 (by rw [hw]; rfl)
        rw [ha] at hb
        cases hb
    | archival => exact absurd rfl hτ
    | overflow => exact ho
  | overflow =>
    rw [tierDict_overflow] at hb
    cases τ with
    | working =>
      rw [tierDict_working]
      cases hw : dictGet st.working p with
      | none => rfl
      | some bw =>
        obtain ⟨_, ho⟩ := h1 (by rw [hw]; rfl)
        rw [ho] at hb
        cases hb
    | archival =>
      rw [tierDict_archival]
      cases ha : dictGet st.archival p with
      | none => rfl
      | some ba =>
        have ho := h2 (by rw [ha]; rfl)
        rw [ho] at hb
        cases hb
    | overflow => exact absurd rfl hτ

/-- Moving a block between tiers preserves well-formedness. -/
theorem move_WF (st : AdvancedMemory) (p : String) (f t : MemoryTier)
    (h : WF st) : WF (move_between_tiers st p f t) := by
  obtain ⟨hw, ha, ho, hex⟩ := h
  cases hb : dictGet (tierDict st f) p with
  | none => rw [move_of_absent st p f t hb]; exact ⟨hw, ha, ho, hex⟩
  | some b =>
    have hndf : (dictKeys (tierDict st f)).Nodup := by
      cases f
      · exact hw
      · exact ha
      · exact ho
    obtain ⟨hself, hfnone, hother⟩ := move_get_self st p f t hb hndf
    refine ⟨move_nodup st p f t MemoryTier.working hw,
      move_nodup st p f t MemoryTier.archival ha,
      move_nodup st p f t MemoryTier.overflow ho, fun k => ?_⟩
    by_cases hk : k = p
    · subst hk
      refine exclusiveAt_of_unique t (fun τ hτ => ?_)
      by_cases hτf : τ = f
      · subst hτf
        exact hfnone hτ
      · rw [hother τ hτ hτf]
        exact (hex k).get_ne_none hb τ hτf
    · exact exclusiveAt_congr (fun τ => move_get_other st p k f t hk τ) (hex k)

/-- Gets of other keys after an in-place tier-dictionary insert. -/
theorem set_insert_get_ne (st : AdvancedMemory) (τ : MemoryTier) (k k' : String)
    (b : MemoryBlock) (h : k' ≠ k) (τ' : MemoryTier) :
    dictGet (tierDict (setTierDict st τ (dictInsert (tierDict st τ) k b)) τ') k' =
      dictGet (tierDict st τ') k' := by
  by_cases hτ : τ' = τ
  · subst hτ
    rw [tierDict_set_same, dictGet_insert_ne _ _ _ _ h]
  · rw [tierDict_set_ne _ _ _ _ (fun hh => hτ hh.symm)]

/-- Gets of the inserted key after an in-place tier-dictionary insert. -/
theorem set_insert_get_self (st : AdvancedMemory) (τ : MemoryTier) (k : String)
    (b : MemoryBlock) :
    dictGet (tierDict (setTierDict st τ (dictInsert (tierDict st τ) k b)) τ) k =
      some b ∧
    (∀ τ', τ' ≠ τ →
      dictGet (tierDict (setTierDict st τ (dictInsert (tierDict st τ) k b)) τ') k =
        dictGet (tierDict st τ') k) := by
  refine ⟨by rw [tierDict_set_same, dictGet_insert_self], fun τ' hτ => ?_⟩
  rw [tierDict_set_ne _ _ _ _ (fun hh => hτ hh.symm)]

/-- Inserting a block for key `k` into tier `τ` preserves well-formedness
when `k` is either fresh (absent from all tiers) or already resident in `τ`. -/
theorem insert_tier_WF (st : AdvancedMemory) (τ : MemoryTier) (k : String)
    (b : MemoryBlock) (hWF : WF st)
    (hok : (∀ τ', dictGet (tierDict st τ') k = none) ∨
      (dictGet (tierDict st τ) k).isSome) :
    WF (setTierDict st τ (dictInsert (tierDict st τ) k b)) := by
  obtain ⟨hw, ha, ho, hex⟩ := hWF
  have hnod : ∀ τ', (dictKeys (tierDict (setTierDict st τ
      (dictInsert (tierDict st τ) k b)) τ')).Nodup := by
    intro τ'
    by_cases hτ : τ' = τ
    · subst hτ
      rw [tierDict_set_same]
      apply dictKeys_insert_nodup
      cases τ'
      · exact hw
      · exact ha
      · exact ho
    · rw [tierDict_set_ne _ _ _ _ (fun hh => hτ hh.symm)]
      cases τ'
      · exact hw
      · exact ha
      · exact ho
  refine ⟨hnod MemoryTier.working, hnod MemoryTier.archival,
    hnod MemoryTier.overflow, fun k' => ?_⟩
  by_cases hk : k' = k
  · subst hk
    refine exclusiveAt_of_unique τ (fun τ' hτ => ?_)
    rw [(set_insert_get_self st τ k' b).2 τ' hτ]
    rcases hok with hok | hok
    · exact hok τ'
    · obtain ⟨v, hv⟩ := Option.isSome_iff_exists.mp hok
      exact (hex k').get_ne_none hv τ' hτ
  · exact exclusiveAt_congr (fun τ' => set_insert_get_ne st τ k k' b hk τ') (hex k')

/-- Erasing a key from one tier preserves well-formedness. -/
theorem erase_tier_WF (st : AdvancedMemory) (τ : MemoryTier) (k : String)
    (hWF : WF st) : WF (setTierDict st τ (dictErase (tierDict st τ) k)) := by
  obtain ⟨hw, ha, ho, hex⟩ := hWF
  have hnodτ : (dictKeys (tierDict st τ)).Nodup := by
    cases τ
    · exact hw
    · exact ha
    · exact ho
  have hget_ne : ∀ k' τ', k' ≠ k →
      dictGet (tierDict (setTierDict st τ (dictErase (tierDict st τ) k)) τ') k' =
        dictGet (tierDict st τ') k' := by
    intro k' τ' hk
    by_cases hτ : τ' = τ
    · subst hτ
      rw [tierDict_set_same, dictGet_erase_ne _ _ _ hk]
    · rw [tierDict_set_ne _ _ _ _ (fun hh => hτ hh.symm)]
  have hget_self : ∀ τ', dictGet (tierDict (setTierDict st τ
      (dictErase (tierDict st τ) k)) τ') k =
      if τ' = τ then none else dictGet (tierDict st τ') k := by
    intro τ'
    by_cases hτ : τ' = τ
    · subst hτ
      rw [tierDict_set_same, dictGet_erase_self _ hnodτ, if_pos rfl]
    · rw [tierDict_set_ne _ _ _ _ (fun hh => hτ hh.symm), if_neg hτ]
  have hnod : ∀ τ', (dictKeys (tierDict (setTierDict st τ
      (dictErase (tierDict st τ) k)) τ')).Nodup := by
    intro τ'
    by_cases hτ : τ' = τ
    · subst hτ
      rw [tierDict_set_same]
      exact dictKeys_erase_nodup _ _ hnodτ
    · rw [tierDict_set_ne _ _ _ _ (fun hh => hτ hh.symm)]
      cases τ'
      · exact hw
      · exact ha
      · exact ho
  refine ⟨hnod MemoryTier.working, hnod MemoryTier.archival,
    hnod MemoryTier.overflow, fun k' => ?_⟩
  by_cases hk : k' = k
  · subst hk
    cases ht' : dictGet (tierDict st MemoryTier.working) k' with
    | some bw =>
      by_cases hτw : MemoryTier.working = τ
      · refine exclusiveAt_of_unique MemoryTier.archival (fun τ' hτ => ?_)
        rw [hget_self τ']
        by_cases h2 : τ' = τ
        · rw [if_pos h2]
        · rw [if_neg h2]
          cases τ'
          · rw [← hτw] at h2; exact absurd rfl h2
          · exact absurd rfl hτ
          · exact (hex k').get_ne_none ht' MemoryTier.overflow (by decide)
      · refine exclusiveAt_of_unique MemoryTier.working (fun τ' hτ => ?_)
        rw [hget_self τ']
        by_cases h2 : τ' = τ
        · rw [if_pos h2]
        · rw [if_neg h2]
          exact (hex k').get_ne_none ht' τ' hτ
    | none =>
      cases ht2 : dictGet (tierDict st MemoryTier.archival) k' with
      | some ba =>
        by_cases hτa : MemoryTier.archival = τ
        · refine exclusiveAt_of_unique MemoryTier.working (fun τ' hτ => ?_)
          rw [hget_self τ']
          by_cases h2 : τ' = τ
          · rw [if_pos h2]
          · rw [if_neg h2]
            cases τ'
            · exact absurd rfl hτ
            · rw [← hτa] at h2; exact absurd rfl h2
            · exact (hex k').get_ne_none ht2 MemoryTier.overflow (by decide)
        · refine exclusiveAt_of_unique MemoryTier.archival (fun τ' hτ => ?_)
          rw [hget_self τ']
          by_cases h2 : τ' = τ
          · rw [if_pos h2]
          · rw [if_neg h2]
            cases τ'
            · exact ht'
            · exact absurd rfl hτ
            · exact (hex k').get_ne_none ht2 MemoryTier.overflow (by decide)
      | none =>
        refine exclusiveAt_of_unique MemoryTier.overflow (fun τ' hτ => ?_)
        rw [hget_self τ']
        by_cases h2 : τ' = τ
        · rw [if_pos h2]
        · rw [if_neg h2]
          cases τ'
          · exact ht'
          · exact ht2
          · exact absurd rfl hτ
  · exact exclusiveAt_congr (fun τ' => hget_ne k' τ' hk) (hex k')

/-- Soundness of the executable well-formedness check. -/
theorem wfB_sound (st : AdvancedMemory) (h : wfB st = true) : WF st := by
  unfold wfB exclusiveB at h
  simp only [Bool.and_eq_true, decide_eq_true_eq, List.all_eq_true] at h
  obtain ⟨⟨⟨hnw, hna⟩, hno⟩, hex1, hex2⟩ := h
  refine ⟨hnw, hna, hno, fun k => ⟨fun hs => ?_, fun hs => ?_⟩⟩
  · obtain ⟨v, hv⟩ := Option.isSome_iff_exists.mp hs
    have := hex1 (k, v) (dictGet_mem hv)
    simp only [Bool.and_eq_true, Option.isNone_iff_eq_none] at this
    exact this
  · obtain ⟨v, hv⟩ := Option.isSome_iff_exists.mp hs
    have := hex2 (k, v) (dictGet_mem hv)
    simp only [Option.isNone_iff_eq_none] at this
    exact this

/-! ## Lookup lemmas -/

/-- The prediction fast path never changes the lookup result: `find_in_tiers`
always agrees with the plain working → archival → overflow scan. -/
theorem find_in_tiers_eq_scan (st : AdvancedMemory) (k : String) :
    find_in_tiers st k =
      match dictGet st.working k with
      | some b => some (MemoryTier.working, b)
      | none =>
        match dictGet st.archival k with
        | some b => some (MemoryTier.archival, b)
        | none =>
          match dictGet st.overflow k with
          | some b => some (MemoryTier.overflow, b)
          | none => none := by
  unfold find_in_tiers
  cases hc : st.predicted_next.contains k <;>
    cases dictGet st.working k <;> cases dictGet st.archival k <;>
      cases dictGet st.overflow k <;> simp

theorem find_none_iff (st : AdvancedMemory) (k : String) :
    find_in_tiers st k = none ↔
      dictGet st.working k = none ∧ dictGet st.archival k = none ∧
        dictGet st.overflow k = none := by
  rw [find_in_tiers_eq_scan]
  cases dictGet st.working k <;> cases dictGet st.archival k <;>
    cases dictGet st.overflow k <;> simp

theorem find_of_working {st : AdvancedMemory} {k : String} {b : MemoryBlock}
    (h : dictGet st.working k = some b) :
    find_in_tiers st k = some (MemoryTier.working, b) := by
  rw [find_in_tiers_eq_scan, h]

theorem find_of_archival {st : AdvancedMemory} {k : String} {b : MemoryBlock}
    (hw : dictGet st.working k = none) (h : dictGet st.archival k = some b) :
    find_in_tiers st k = some (MemoryTier.archival, b) := by
  rw [find_in_tiers_eq_scan, hw, h]

theorem find_of_overflow {st : AdvancedMemory} {k : String} {b : MemoryBlock}
    (hw : dictGet st.working k = none) (ha : dictGet st.archival k = none)
    (h : dictGet st.overflow k = some b) :
    find_in_tiers st k = some (MemoryTier.overflow, b) := by
  rw [find_in_tiers_eq_scan, hw, ha, h]

/-- A successful lookup really reads the block from the reported tier. -/
theorem find_eq_get {st : AdvancedMemory} {k : String} {t : MemoryTier}
    {b : MemoryBlock} (h : find_in_tiers st k = some (t, b)) :
    dictGet (tierDict st t) k = some b := by
  rw [find_in_tiers_eq_scan] at h
  cases hw : dictGet st.working k with
  | some bw =>
    rw [hw] at h
    cases h
    exact hw
  | none =>
    rw [hw] at h
    cases ha : dictGet st.archival k with
    | some ba =>
      rw [ha] at h
      cases h
      exact ha
    | none =>
      rw [ha] at h
      cases ho : dictGet st.overflow k with
      | some bo =>
        rw [ho] at h
        cases h
        exact ho
      | none => rw [ho] at h; cases h

/-- Under exclusivity, a found block is the only copy: all other tiers miss. -/
theorem find_unique {st : AdvancedMemory} {k : String} {t : MemoryTier}
    {b : MemoryBlock} (hex : ExclusiveAt st k)
    (h : find_in_tiers st k = some (t, b)) :
    ∀ τ, τ ≠ t → dictGet (tierDict st τ) k = none :=
  hex.get_ne_none (find_eq_get h)

/-- A lookup in a state whose gets at `k` are known pointwise. -/
theorem find_of_unique {st : AdvancedMemory} {k : String} {t : MemoryTier}
    {b : MemoryBlock} (hb : dictGet (tierDict st t) k = some b)
    (hnone : ∀ τ, τ ≠ t → dictGet (tierDict st τ) k = none) :
    find_in_tiers st k = some (t, b) := by
  cases t with
  | working => exact find_of_working hb
  | archival =>
    exact find_of_archival (hnone MemoryTier.working (by decide)) hb
  | overflow =>
    exact find_of_overflow (hnone MemoryTier.working (by decide))
      (hnone MemoryTier.archival (by decide)) hb

/-! ## Well-formedness is preserved by every command -/

theorem WF_of_eq_dicts {st st' : AdvancedMemory} (hw : st'.working = st.working)
    (ha : st'.archival = st.archival) (ho : st'.overflow = st.overflow)
    (h : WF st) : WF st' := by
  obtain ⟨h1, h2, h3, h4⟩ := h
  refine ⟨hw ▸ h1, ha ▸ h2, ho ▸ h3, fun k => ?_⟩
  have hk := h4 k
  unfold ExclusiveAt at hk ⊢
  rw [hw, ha, ho]
  exact hk

theorem WF_initState : WF initState := by
  refine ⟨by simp [initState, dictKeys], by simp [initState, dictKeys],
    by simp [initState, dictKeys], fun k => ?_⟩
  exact ⟨fun hs => by simp [initState, dictGet] at hs,
    fun hs => by simp [initState, dictGet] at hs⟩

theorem recordAccess_WF (st : AdvancedMemory) (k : String) (now : Nat)
    (h : WF st) : WF (recordAccess st k now) :=
  WF_of_eq_dicts rfl rfl rfl h

theorem predict_WF (st : AdvancedMemory) (k : String) (h : WF st) :
    WF (predict_next_access st k) := by
  simp only [predict_next_access]
  split
  · exact WF_of_eq_dicts rfl rfl rfl h
  · split
    · exact WF_of_eq_dicts rfl rfl rfl h
    · exact WF_of_eq_dicts rfl rfl rfl h

theorem applyMutation_WF (st : AdvancedMemory) (now : Nat) (key : String)
    (tier : MemoryTier) (b1 : MemoryBlock)
    (hpres : (dictGet (tierDict st tier) key).isSome) (h : WF st) :
    WF (applyMutation st now key tier b1) := by
  unfold applyMutation
  have h1 : WF (setTierDict st tier (dictInsert (tierDict st tier) key b1)) :=
    insert_tier_WF st tier key b1 h (Or.inr hpres)
  by_cases hnt : determine_tier
      (setTierDict st tier (dictInsert (tierDict st tier) key b1)) key
      b1.content now ≠ tier
  · rw [if_pos hnt]
    exact move_WF _ _ _ _ h1
  · rw [if_neg hnt]
    exact h1

theorem view_WF (st : AdvancedMemory) (now : Nat) (path : String)
    (vr : Option (List Int)) (h : WF st) : WF (view st now path vr).2 := by
  simp only [view]
  by_cases hroot : path = "/memories" ∨ path = ""
  · rw [if_pos hroot]
    exact h
  · rw [if_neg hroot]
    cases hf : find_in_tiers st (validate_path path) with
    | none => exact h
    | some tb =>
      obtain ⟨tier, block⟩ := tb
      have hpres : (dictGet (tierDict st tier) (validate_path path)).isSome := by
        rw [find_eq_get hf]; rfl
      have h3 : WF (predict_next_access
          (recordAccess (setTierDict st tier (dictInsert (tierDict st tier)
            (validate_path path) (update_access block now))) (validate_path path) now)
          (validate_path path)) :=
        predict_WF _ _ (recordAccess_WF _ _ _
          (insert_tier_WF st tier _ _ h (Or.inr hpres)))
      cases vr with
      | none => exact h3
      | some l =>
        rcases l with _ | ⟨a, l⟩
        · exact h3
        rcases l with _ | ⟨b, l⟩
        · exact h3
        rcases l with _ | ⟨c, l⟩
        · exact h3
        · exact h3

theorem create_WF (st : AdvancedMemory) (now : Nat) (path text : String)
    (h : WF st)
    (hsafe : ∀ τ', (dictGet (tierDict st τ') (validate_path path)).isSome →
      determine_tier st (validate_path path) text now = τ') :
    WF (create st now path text).2 := by
  refine insert_tier_WF st _ _ _ h ?_
  by_cases hw : (dictGet (tierDict st MemoryTier.working) (validate_path path)).isSome
  · exact Or.inr (by rw [hsafe _ hw]; exact hw)
  · by_cases ha : (dictGet (tierDict st MemoryTier.archival) (validate_path path)).isSome
    · exact Or.inr (by rw [hsafe _ ha]; exact ha)
    · by_cases ho : (dictGet (tierDict st MemoryTier.overflow) (validate_path path)).isSome
      · exact Or.inr (by rw [hsafe _ ho]; exact ho)
      · refine Or.inl (fun τ' => ?_)
        cases τ'
        · exact Option.not_isSome_iff_eq_none.mp hw
        · exact Option.not_isSome_iff_eq_none.mp ha
        · exact Option.not_isSome_iff_eq_none.mp ho

theorem str_replace_WF (st : AdvancedMemory) (now : Nat)
    (path old_str new_str : String) (h : WF st) :
    WF (str_replace st now path old_str new_str).2 := by
  simp only [str_replace]
  split
  · exact h
  · rename_i tier block hf
    have hpres : (dictGet (tierDict st tier) (validate_path path)).isSome := by
      rw [find_eq_get hf]; rfl
    by_cases hc : pyCount block.content old_str = 0
    · rw [if_pos hc]
      exact h
    · rw [if_neg hc]
      exact applyMutation_WF st now _ tier _ hpres h

theorem insert_WF (st : AdvancedMemory) (now : Nat) (path : String)
    (line : Int) (text : String) (h : WF st) :
    WF (insert st now path line text).2 := by
  simp only [insert.eq_def]
  split
  · rename_i hf
    by_cases hl : line = 0
    · rw [if_pos hl]
      refine create_WF st now path text h (fun τ' hs => ?_)
      obtain ⟨hw, ha, ho⟩ := (find_none_iff st (validate_path path)).mp hf
      cases τ'
      · rw [tierDict_working, hw] at hs
        simp at hs
      · rw [tierDict_archival, ha] at hs
        simp at hs
      · rw [tierDict_overflow, ho] at hs
        simp at hs
    · rw [if_neg hl]
      exact h
  · rename_i tier block hf
    have hpres : (dictGet (tierDict st tier) (validate_path path)).isSome := by
      rw [find_eq_get hf]; rfl
    by_cases hl : line < 0
    · rw [if_pos hl]
      exact h
    · rw [if_neg hl]
      exact applyMutation_WF st now _ tier _ hpres h

theorem delete_WF (st : AdvancedMemory) (path : String) (h : WF st) :
    WF (delete st path).2 := by
  simp only [delete]
  split
  · exact h
  · rename_i tier block hf
    exact WF_of_eq_dicts rfl rfl rfl (erase_tier_WF st tier _ h)

theorem rename_WF (st : AdvancedMemory) (old_path new_path : String)
    (h : WF st) : WF (rename st old_path new_path).2 := by
  simp only [rename]
  split
  · exact h
  · rename_i tier block hf
    by_cases hdest : (find_in_tiers st (validate_path new_path)).isSome
    · rw [if_pos hdest]
      exact h
    · rw [if_neg hdest]
      have hne : validate_path new_path ≠ validate_path old_path := by
        intro he
        rw [he, hf] at hdest
        exact hdest rfl
      have h1 : WF (setTierDict st tier
          (dictErase (tierDict st tier) (validate_path old_path))) :=
        erase_tier_WF st tier _ h
      have hnone : ∀ τ', dictGet (tierDict (setTierDict st tier
          (dictErase (tierDict st tier) (validate_path old_path))) τ')
          (validate_path new_path) = none := by
        intro τ'
        have hd : find_in_tiers st (validate_path new_path) = none :=
          Option.not_isSome_iff_eq_none.mp hdest
        obtain ⟨hw, ha, ho⟩ := (find_none_iff st _).mp hd
        have hunch : dictGet (tierDict (setTierDict st tier
            (dictErase (tierDict st tier) (validate_path old_path))) τ')
            (validate_path new_path) =
            dictGet (tierDict st τ') (validate_path new_path) := by
          by_cases hτ : τ' = tier
          · subst hτ
            rw [tierDict_set_same, dictGet_erase_ne _ _ _ hne]
          · rw [tierDict_set_ne _ _ _ _ (fun hh => hτ hh.symm)]
        rw [hunch]
        cases τ'
        · exact hw
        · exact ha
        · exact ho
      have h2 : WF (setTierDict (setTierDict st tier
          (dictErase (tierDict st tier) (validate_path old_path))) tier
          (dictInsert (tierDict (setTierDict st tier
            (dictErase (tierDict st tier) (validate_path old_path))) tier)
            (validate_path new_path) block)) :=
        insert_tier_WF _ tier _ block h1 (Or.inl hnone)
      split
      · exact WF_of_eq_dicts rfl rfl rfl h2
      · exact h2

theorem foldl_WF {β : Type} (step : AdvancedMemory → β → AdvancedMemory)
    (hstep : ∀ s x, WF s → WF (step s x)) :
    ∀ (l : List β) (s : AdvancedMemory), WF s → WF (List.foldl step s l) := by
  intro l
  induction l with
  | nil => intro s h; exact h
  | cons x rest ih =>
    intro s h
    exact ih _ (hstep s x h)

theorem promotePass_WF (now : Nat) (st : AdvancedMemory) (h : WF st) :
    WF (promotePass now st) := by
  unfold promotePass
  refine foldl_WF _ (fun s p hs => ?_) st.archival st h
  by_cases h1 : 5 < p.2.access_count ∧ now - p.2.last_access < 300
  · rw [if_pos h1]
    by_cases h2 : workingSize s + p.2.size_bytes ≤ workingLimit
    · rw [if_pos h2]
      exact move_WF _ _ _ _ hs
    · rw [if_neg h2]
      exact hs
  · rw [if_neg h1]
    exact hs

theorem demotePass_WF (now : Nat) (st : AdvancedMemory) (h : WF st) :
    WF (demotePass now st) := by
  unfold demotePass
  refine foldl_WF _ (fun s p hs => ?_) st.working st h
  by_cases h1 : 600 < now - p.2.last_access
  · rw [if_pos h1]
    exact move_WF _ _ _ _ hs
  · rw [if_neg h1]
    exact hs

theorem archivePass_WF (now : Nat) (st : AdvancedMemory) (h : WF st) :
    WF (archivePass now st) := by
  unfold archivePass
  refine foldl_WF _ (fun s p hs => ?_) st.archival st h
  by_cases h1 : 3600 < now - p.2.last_access
  · rw [if_pos h1]
    exact move_WF _ _ _ _ hs
  · rw [if_neg h1]
    exact hs

theorem reorganize_memories_WF (st : AdvancedMemory) (now : Nat) (h : WF st) :
    WF (reorganize_memories st now) :=
  archivePass_WF now _ (demotePass_WF now _ (promotePass_WF now _ h))

theorem reorganize_if_needed_WF (st : AdvancedMemory) (now : Nat) (h : WF st) :
    WF (reorganize_if_needed st now) := by
  unfold reorganize_if_needed
  by_cases h1 : reorganize_threshold ≤ st.reorganize_counter + 1
  · rw [if_pos h1]
    exact WF_of_eq_dicts rfl rfl rfl
      (reorganize_memories_WF _ now (WF_of_eq_dicts rfl rfl rfl h))
  · rw [if_neg h1]
    exact WF_of_eq_dicts rfl rfl rfl h

/-- Soundness of the safe-create check for the non-trivial branch. -/
theorem createSafeB_sound (st : AdvancedMemory) (now : Nat) (inp : ToolInput)
    (hcmd : inp.command = some "create") (hp : falsyStr inp.path = false)
    (hs : createSafeB st now inp = true) :
    ∀ τ', (dictGet (tierDict st τ') (validate_path (inp.path.getD ""))).isSome →
      determine_tier st (validate_path (inp.path.getD ""))
        (inp.file_text.getD "") now = τ' := by
  unfold createSafeB at hs
  rw [hcmd, if_pos rfl] at hs
  simp only [hp, Bool.false_eq_true, if_false, tierList, List.all_cons,
    List.all_nil, Bool.and_true, Bool.and_eq_true, Bool.or_eq_true,
    Bool.not_eq_true', decide_eq_true_eq] at hs
  intro τ' hsome
  cases τ' with
  | working =>
    rcases hs.1 with hfalse | heq
    · rw [hfalse] at hsome
      exact Bool.noConfusion hsome
    · exact heq
  | archival =>
    rcases hs.2.1 with hfalse | heq
    · rw [hfalse] at hsome
      exact Bool.noConfusion hsome
    · exact heq
  | overflow =>
    rcases hs.2.2 with hfalse | heq
    · rw [hfalse] at hsome
      exact Bool.noConfusion hsome
    · exact heq

/-- Every dispatched handler preserves well-formedness (creates must be
safe). -/
theorem dispatchHandler_WF (cmd : String) (st : AdvancedMemory) (now : Nat)
    (inp : ToolInput) (h : WF st) (hcmd : inp.command = some cmd)
    (hsafe : createSafeB st now inp = true) :
    ∀ r st1, dispatchHandler cmd st now inp = some (r, st1) → WF st1 := by
  intro r st1 hd
  unfold dispatchHandler at hd
  by_cases h1 : cmd = "view"
  · rw [if_pos h1] at hd
    injection hd with hd
    rw [show st1 = (handle_view st now inp).2 from (congrArg Prod.snd hd).symm]
    exact view_WF _ _ _ _ h
  · rw [if_neg h1] at hd
    by_cases h2 : cmd = "create"
    · rw [if_pos h2] at hd
      injection hd with hd
      rw [show st1 = (handle_create st now inp).2 from (congrArg Prod.snd hd).symm]
      unfold handle_create
      cases hp : falsyStr inp.path with
      | true => rw [if_pos rfl]; exact h
      | false =>
        rw [if_neg Bool.false_ne_true]
        subst h2
        exact create_WF st now _ _ h (createSafeB_sound st now inp hcmd hp hsafe)
    · rw [if_neg h2] at hd
      by_cases h3 : cmd = "str_replace"
      · rw [if_pos h3] at hd
        injection hd with hd
        rw [show st1 = (handle_str_replace st now inp).2 from
          (congrArg Prod.snd hd).symm]
        unfold handle_str_replace
        by_cases hp : (falsyStr inp.path || inp.old_str.isNone || inp.new_str.isNone) = true
        · rw [if_pos hp]; exact h
        · rw [if_neg hp]; exact str_replace_WF _ _ _ _ _ h
      · rw [if_neg h3] at hd
        by_cases h4 : cmd = "insert"
        · rw [if_pos h4] at hd
          injection hd with hd
          rw [show st1 = (handle_insert st now inp).2 from
            (congrArg Prod.snd hd).symm]
          unfold handle_insert
          by_cases hp : (falsyStr inp.path || inp.insert_line.isNone) = true
          · rw [if_pos hp]; exact h
          · rw [if_neg hp]; exact insert_WF _ _ _ _ _ h
        · rw [if_neg h4] at hd
          by_cases h5 : cmd = "delete"
          · rw [if_pos h5] at hd
            injection hd with hd
            rw [show st1 = (handle_delete st now inp).2 from
              (congrArg Prod.snd hd).symm]
            unfold handle_delete
            by_cases hp : falsyStr inp.path = true
            · rw [if_pos hp]; exact h
            · rw [if_neg hp]; exact delete_WF _ _ h
          · rw [if_neg h5] at hd
            by_cases h6 : cmd = "rename"
            · rw [if_pos h6] at hd
              injection hd with hd
              rw [show st1 = (handle_rename st now inp).2 from
                (congrArg Prod.snd hd).symm]
              unfold handle_rename
              by_cases hp : (falsyStr inp.old_path || falsyStr inp.new_path) = true
              · rw [if_pos hp]; exact h
              · rw [if_neg hp]; exact rename_WF _ _ _ h
            · rw [if_neg h6] at hd
              cases hd

/-- The dispatcher preserves well-formedness on every tool call whose
create (if it is one) is safe. -/
theorem handle_tool_call_WF (st : AdvancedMemory) (now : Nat) (inp : ToolInput)
    (h : WF st) (hsafe : createSafeB st now inp = true) :
    WF (handle_tool_call st now inp).2 := by
  unfold handle_tool_call
  split
  · exact h
  · rename_i cmd hcmd
    by_cases hempty : cmd = ""
    · rw [if_pos hempty]
      exact h
    · rw [if_neg hempty]
      cases hd : dispatchHandler cmd st now inp with
      | none => exact h
      | some pair =>
        obtain ⟨r, st1⟩ := pair
        have h1 : WF st1 := dispatchHandler_WF cmd st now inp h hcmd hsafe r st1 hd
        cases r with
        | ok v => exact reorganize_if_needed_WF st1 now h1
        | error e => exact h1

/-- Running a trace of tool calls whose creates are all safe preserves
well-formedness. -/
theorem safeTrace_WF :
    ∀ (tr : List (Nat × ToolInput)) (st : AdvancedMemory), WF st →
      safeTrace st tr = true → WF (runCommands st tr) := by
  intro tr
  induction tr with
  | nil => intro st h _; exact h
  | cons p rest ih =>
    obtain ⟨now, inp⟩ := p
    intro st h hsafe
    simp only [safeTrace, Bool.and_eq_true] at hsafe
    exact ih _ (handle_tool_call_WF st now inp h hsafe.1) hsafe.2

/-! ## Where a mutated block ends up -/

/-- After the `str_replace`/`insert` tail, the key is found (in whichever
tier the Placement Policy chose) holding the mutated block: every field
except possibly `tier` is the mutated block's. -/
theorem applyMutation_find (st : AdvancedMemory) (now : Nat) (key : String)
    (tier : MemoryTier) (b1 : MemoryBlock) (hWF : WF st) {b0 : MemoryBlock}
    (hpres : dictGet (tierDict st tier) key = some b0) :
    ∃ t' b', find_in_tiers (applyMutation st now key tier b1) key =
        some (t', b') ∧
      b'.content = b1.content ∧ b'.access_count = b1.access_count ∧
      b'.last_access = b1.last_access ∧ b'.size_bytes = b1.size_bytes ∧
      b'.created_at = b1.created_at := by
  unfold applyMutation
  have hWF1 : WF (setTierDict st tier (dictInsert (tierDict st tier) key b1)) :=
    insert_tier_WF st tier key b1 hWF (Or.inr (by rw [hpres]; rfl))
  have hget1 : dictGet (tierDict (setTierDict st tier
      (dictInsert (tierDict st tier) key b1)) tier) key = some b1 :=
    (set_insert_get_self st tier key b1).1
  have hnone1 : ∀ τ, τ ≠ tier → dictGet (tierDict (setTierDict st tier
      (dictInsert (tierDict st tier) key b1)) τ) key = none := by
    intro τ hτ
    rw [(set_insert_get_self st tier key b1).2 τ hτ]
    exact (hWF.2.2.2 key).get_ne_none hpres τ hτ
  by_cases hnt : determine_tier (setTierDict st tier
      (dictInsert (tierDict st tier) key b1)) key b1.content now ≠ tier
  · rw [if_pos hnt]
    have hnd1 : (dictKeys (tierDict (setTierDict st tier
        (dictInsert (tierDict st tier) key b1)) tier)).Nodup := by
      obtain ⟨hw1, ha1, ho1, _⟩ := hWF1
      cases tier
      · exact hw1
      · exact ha1
      · exact ho1
    obtain ⟨hself, hfn, hoth⟩ := move_get_self _ key tier _ hget1 hnd1
    refine ⟨_, { b1 with tier := determine_tier (setTierDict st tier
      (dictInsert (tierDict st tier) key b1)) key b1.content now },
      find_of_unique hself (fun τ hτ => ?_), rfl, rfl, rfl, rfl, rfl⟩
    by_cases hτf : τ = tier
    · subst hτf
      exact hfn (fun hh => hnt hh.symm)
    · rw [hoth τ hτ hτf]
      exact hnone1 τ hτf
  · rw [if_neg hnt]
    exact ⟨tier, b1, find_of_unique hget1 hnone1, rfl, rfl, rfl, rfl, rfl⟩

/-! ## Reorganizer fold lemmas -/

/-- Two states agree on every tier lookup of key `k`. -/
def TierGetsEq (k : String) (s s' : AdvancedMemory) : Prop :=
  ∀ τ, dictGet (tierDict s' τ) k = dictGet (tierDict s τ) k

theorem tierGetsEq_trans {k : String} {s1 s2 s3 : AdvancedMemory}
    (h1 : TierGetsEq k s1 s2) (h2 : TierGetsEq k s2 s3) : TierGetsEq k s1 s3 :=
  fun τ => (h2 τ).trans (h1 τ)

/-- A fold whose steps never touch key `k` preserves all lookups of `k`. -/
theorem foldl_tierGets_untouched
    (step : AdvancedMemory → String × MemoryBlock → AdvancedMemory)
    (k : String)
    (hstep : ∀ s x, x.1 ≠ k → TierGetsEq k s (step s x)) :
    ∀ (l : List (String × MemoryBlock)), (∀ x ∈ l, x.1 ≠ k) →
      ∀ s, TierGetsEq k s (List.foldl step s l) := by
  intro l
  induction l with
  | nil => intro _ s τ; rfl
  | cons x rest ih =>
    intro hl s
    exact tierGetsEq_trans (hstep s x (hl x (List.mem_cons_self x rest)))
      (ih (fun y hy => hl y (List.mem_cons_of_mem x hy)) (step s x))

/-- A fold over a snapshot containing `(k, b)` exactly once: the final
lookups of `k` are those right after the step at `(k, b)` fired on the
intermediate state. -/
theorem foldl_tierGets_hit
    (step : AdvancedMemory → String × MemoryBlock → AdvancedMemory)
    (k : String) (b : MemoryBlock)
    (hstep : ∀ s x, x.1 ≠ k → TierGetsEq k s (step s x))
    (l1 l2 : List (String × MemoryBlock))
    (hl2 : ∀ x ∈ l2, x.1 ≠ k) (s : AdvancedMemory) :
    TierGetsEq k (step (List.foldl step s l1) (k, b))
      (List.foldl step s (l1 ++ (k, b) :: l2)) := by
  rw [List.foldl_append, List.foldl_cons]
  exact foldl_tierGets_untouched step k hstep l2 hl2 _

/-- Split an association list at the (unique) occurrence of key `k`. -/
theorem dictGet_some_split {α : Type} {d : Dict α} {k : String} {v : α}
    (hnd : (dictKeys d).Nodup) (h : dictGet d k = some v) :
    ∃ l1 l2, d = l1 ++ (k, v) :: l2 ∧ (∀ x ∈ l1, x.1 ≠ k) ∧
      (∀ x ∈ l2, x.1 ≠ k) := by
  induction d with
  | nil => simp [dictGet] at h
  | cons p rest ih =>
    obtain ⟨k', v'⟩ := p
    simp only [dictKeys, List.map_cons, List.nodup_cons] at hnd
    by_cases h2 : k' = k
    · subst h2
      simp only [dictGet, if_pos rfl] at h
      cases h
      refine ⟨[], rest, rfl, by simp, fun x hx hk => ?_⟩
      exact hnd.1 (hk ▸ List.mem_map_of_mem Prod.fst hx)
    · simp only [dictGet, if_neg h2] at h
      obtain ⟨l1, l2, hd, hl1, hl2⟩ := ih hnd.2 h
      exact ⟨(k', v') :: l1, l2, by rw [hd]; simp, fun x hx => by
        rcases List.mem_cons.mp hx with hx | hx
        · subst hx; exact h2
        · exact hl1 x hx, hl2⟩

/-- Keys present in a dict with a `none` lookup for `k` are all different
from `k`. -/
theorem keys_ne_of_get_none {α : Type} {d : Dict α} {k : String}
    (h : dictGet d k = none) : ∀ x ∈ d, x.1 ≠ k := by
  intro x hx hk
  have := mem_dictGet_isSome hx
  rw [hk, h] at this
  cases this

/-- The promotion pass never touches a key that is absent from archival. -/
theorem promotePass_untouched (now : Nat) (st : AdvancedMemory) (k : String)
    (h : dictGet st.archival k = none) : TierGetsEq k st (promotePass now st) := by
  unfold promotePass
  refine foldl_tierGets_untouched _ k (fun s x hx => ?_) st.archival
    (keys_ne_of_get_none h) st
  show TierGetsEq k s (if 5 < x.2.access_count ∧ now - x.2.last_access < 300 then
    if workingSize s + x.2.size_bytes ≤ workingLimit then
      move_between_tiers s x.1 MemoryTier.archival MemoryTier.working
    else s else s)
  by_cases h1 : 5 < x.2.access_count ∧ now - x.2.last_access < 300
  · rw [if_pos h1]
    by_cases h2 : workingSize s + x.2.size_bytes ≤ workingLimit
    · rw [if_pos h2]
      exact fun τ => move_get_other s x.1 k _ _ (Ne.symm hx) τ
    · rw [if_neg h2]
      exact fun τ => rfl
  · rw [if_neg h1]
    exact fun τ => rfl

/-- The demotion pass never touches a key that is absent from working. -/
theorem demotePass_untouched (now : Nat) (st : AdvancedMemory) (k : String)
    (h : dictGet st.working k = none) : TierGetsEq k st (demotePass now st) := by
  unfold demotePass
  refine foldl_tierGets_untouched _ k (fun s x hx => ?_) st.working
    (keys_ne_of_get_none h) st
  show TierGetsEq k s (if 600 < now - x.2.last_access then
    move_between_tiers s x.1 MemoryTier.working MemoryTier.archival else s)
  by_cases h1 : 600 < now - x.2.last_access
  · rw [if_pos h1]
    exact fun τ => move_get_other s x.1 k _ _ (Ne.symm hx) τ
  · rw [if_neg h1]
    exact fun τ => rfl

/-- The archive pass never touches a key that is absent from archival. -/
theorem archivePass_untouched (now : Nat) (st : AdvancedMemory) (k : String)
    (h : dictGet st.archival k = none) : TierGetsEq k st (archivePass now st) := by
  unfold archivePass
  refine foldl_tierGets_untouched _ k (fun s x hx => ?_) st.archival
    (keys_ne_of_get_none h) st
  show TierGetsEq k s (if 3600 < now - x.2.last_access then
    move_between_tiers s x.1 MemoryTier.archival MemoryTier.overflow else s)
  by_cases h1 : 3600 < now - x.2.last_access
  · rw [if_pos h1]
    exact fun τ => move_get_other s x.1 k _ _ (Ne.symm hx) τ
  · rw [if_neg h1]
    exact fun τ => rfl

/-- Exact behaviour of the demotion pass on a working-tier block. -/
theorem demotePass_spec (now : Nat) (st : AdvancedMemory) (k : String)
    (b : MemoryBlock) (hWF : WF st) (hk : dictGet st.working k = some b) :
    (now - b.last_access ≤ 600 → TierGetsEq k st (demotePass now st)) ∧
    (600 < now - b.last_access →
      dictGet (demotePass now st).archival k =
        some { b with tier := MemoryTier.archival } ∧
      dictGet (demotePass now st).working k = none ∧
      dictGet (demotePass now st).overflow k = dictGet st.overflow k) := by
  obtain ⟨l1, l2, hsplit, hl1, hl2⟩ := dictGet_some_split hWF.1 hk
  have hstep : ∀ s (x : String × MemoryBlock), x.1 ≠ k →
      TierGetsEq k s (if 600 < now - x.2.last_access then
        move_between_tiers s x.1 MemoryTier.working MemoryTier.archival else s) := by
    intro s x hx
    by_cases h1 : 600 < now - x.2.last_access
    · rw [if_pos h1]
      exact fun τ => move_get_other s x.1 k _ _ (Ne.symm hx) τ
    · rw [if_neg h1]
      exact fun τ => rfl
  have hstepWF : ∀ s (x : String × MemoryBlock), WF s →
      WF (if 600 < now - x.2.last_access then
        move_between_tiers s x.1 MemoryTier.working MemoryTier.archival else s) := by
    intro s x hs
    by_cases h1 : 600 < now - x.2.last_access
    · rw [if_pos h1]; exact move_WF _ _ _ _ hs
    · rw [if_neg h1]; exact hs
  have hD : demotePass now st = List.foldl
      (fun s p => if 600 < now - p.2.last_access then
        move_between_tiers s p.1 MemoryTier.working MemoryTier.archival else s)
      st (l1 ++ (k, b) :: l2) := by
    unfold demotePass
    rw [← hsplit]
  have hmid : TierGetsEq k st (List.foldl
      (fun s p => if 600 < now - p.2.last_access then
        move_between_tiers s p.1 MemoryTier.working MemoryTier.archival else s)
      st l1) :=
    foldl_tierGets_untouched _ k hstep l1 hl1 st
  have hmidWF : WF (List.foldl
      (fun s p => if 600 < now - p.2.last_access then
        move_between_tiers s p.1 MemoryTier.working MemoryTier.archival else s)
      st l1) :=
    foldl_WF _ hstepWF l1 st hWF
  have hfin : TierGetsEq k
      (if 600 < now - b.last_access then
        move_between_tiers
          (List.foldl
            (fun s p => if 600 < now - p.2.last_access then
              move_between_tiers s p.1 MemoryTier.working MemoryTier.archival else s)
            st l1) k MemoryTier.working MemoryTier.archival
      else
        List.foldl
          (fun s p => if 600 < now - p.2.last_access then
            move_between_tiers s p.1 MemoryTier.working MemoryTier.archival else s)
          st l1)
      (demotePass now st) := by
    rw [hD]
    exact foldl_tierGets_hit _ k b hstep l1 l2 hl2 st
  constructor
  · intro hle
    have hcond : ¬ 600 < now - b.last_access := by omega
    rw [if_neg hcond] at hfin
    exact tierGetsEq_trans hmid hfin
  · intro hgt
    rw [if_pos hgt] at hfin
    have hmidget : dictGet (tierDict (List.foldl
        (fun s p => if 600 < now - p.2.last_access then
          move_between_tiers s p.1 MemoryTier.working MemoryTier.archival else s)
        st l1) MemoryTier.working) k = some b := by
      rw [hmid MemoryTier.working, tierDict_working]
      exact hk
    obtain ⟨hself, hfn, hoth⟩ := move_get_self _ k MemoryTier.working
      MemoryTier.archival hmidget hmidWF.1
    refine ⟨?_, ?_, ?_⟩
    · rw [show dictGet (demotePass now st).archival k =
        dictGet (tierDict (demotePass now st) MemoryTier.archival) k from rfl,
        hfin MemoryTier.archival]
      exact hself
    · rw [show dictGet (demotePass now st).working k =
        dictGet (tierDict (demotePass now st) MemoryTier.working) k from rfl,
        hfin MemoryTier.working]
      exact hfn (by decide)
    · rw [show dictGet (demotePass now st).overflow k =
        dictGet (tierDict (demotePass now st) MemoryTier.overflow) k from rfl,
        hfin MemoryTier.overflow, hoth MemoryTier.overflow (by decide) (by decide),
        hmid MemoryTier.overflow]
      rfl

/-- Exact behaviour of the archive pass on an archival-tier block. -/
theorem archivePass_spec (now : Nat) (st : AdvancedMemory) (k : String)
    (b : MemoryBlock) (hWF : WF st) (hk : dictGet st.archival k = some b) :
    (now - b.last_access ≤ 3600 → TierGetsEq k st (archivePass now st)) ∧
    (3600 < now - b.last_access →
      dictGet (archivePass now st).overflow k =
        some { b with tier := MemoryTier.overflow } ∧
      dictGet (archivePass now st).archival k = none ∧
      dictGet (archivePass now st).working k = dictGet st.working k) := by
  obtain ⟨l1, l2, hsplit, hl1, hl2⟩ := dictGet_some_split hWF.2.1 hk
  have hstep : ∀ s (x : String × MemoryBlock), x.1 ≠ k →
      TierGetsEq k s (if 3600 < now - x.2.last_access then
        move_between_tiers s x.1 MemoryTier.archival MemoryTier.overflow else s) := by
    intro s x hx
    by_cases h1 : 3600 < now - x.2.last_access
    · rw [if_pos h1]
      exact fun τ => move_get_other s x.1 k _ _ (Ne.symm hx) τ
    · rw [if_neg h1]
      exact fun τ => rfl
  have hstepWF : ∀ s (x : String × MemoryBlock), WF s →
      WF (if 3600 < now - x.2.last_access then
        move_between_tiers s x.1 MemoryTier.archival MemoryTier.overflow else s) := by
    intro s x hs
    by_cases h1 : 3600 < now - x.2.last_access
    · rw [if_pos h1]; exact move_WF _ _ _ _ hs
    · rw [if_neg h1]; exact hs
  have hD : archivePass now st = List.foldl
      (fun s p => if 3600 < now - p.2.last_access then
        move_between_tiers s p.1 MemoryTier.archival MemoryTier.overflow else s)
      st (l1 ++ (k, b) :: l2) := by
    unfold archivePass
    rw [← hsplit]
  have hmid : TierGetsEq k st (List.foldl
      (fun s p => if 3600 < now - p.2.last_access then
        move_between_tiers s p.1 MemoryTier.archival MemoryTier.overflow else s)
      st l1) :=
    foldl_tierGets_untouched _ k hstep l1 hl1 st
  have hmidWF : WF (List.foldl
      (fun s p => if 3600 < now - p.2.last_access then
        move_between_tiers s p.1 MemoryTier.archival MemoryTier.overflow else s)
      st l1) :=
    foldl_WF _ hstepWF l1 st hWF
  have hfin : TierGetsEq k
      (if 3600 < now - b.last_access then
        move_between_tiers
          (List.foldl
            (fun s p => if 3600 < now - p.2.last_access then
              move_between_tiers s p.1 MemoryTier.archival MemoryTier.overflow else s)
            st l1) k MemoryTier.archival MemoryTier.overflow
      else
        List.foldl
          (fun s p => if 3600 < now - p.2.last_access then
            move_between_tiers s p.1 MemoryTier.archival MemoryTier.overflow else s)
          st l1)
      (archivePass now st) := by
    rw [hD]
    exact foldl_tierGets_hit _ k b hstep l1 l2 hl2 st
  constructor
  · intro hle
    have hcond : ¬ 3600 < now - b.last_access := by omega
    rw [if_neg hcond] at hfin
    exact tierGetsEq_trans hmid hfin
  · intro hgt
    rw [if_pos hgt] at hfin
    have hmidget : dictGet (tierDict (List.foldl
        (fun s p => if 3600 < now - p.2.last_access then
          move_between_tiers s p.1 MemoryTier.archival MemoryTier.overflow else s)
        st l1) MemoryTier.archival) k = some b := by
      rw [hmid MemoryTier.archival, tierDict_archival]
      exact hk
    obtain ⟨hself, hfn, hoth⟩ := move_get_self _ k MemoryTier.archival
      MemoryTier.overflow hmidget hmidWF.2.1
    refine ⟨?_, ?_, ?_⟩
    · rw [show dictGet (archivePass now st).overflow k =
        dictGet (tierDict (archivePass now st) MemoryTier.overflow) k from rfl,
        hfin MemoryTier.overflow]
      exact hself
    · rw [show dictGet (archivePass now st).archival k =
        dictGet (tierDict (archivePass now st) MemoryTier.archival) k from rfl,
        hfin MemoryTier.archival]
      exact hfn (by decide)
    · rw [show dictGet (archivePass now st).working k =
        dictGet (tierDict (archivePass now st) MemoryTier.working) k from rfl,
        hfin MemoryTier.working, hoth MemoryTier.working (by decide) (by decide),
        hmid MemoryTier.working]
      rfl

/-- Full reorganization behaviour for a working-tier block, by idle time. -/
theorem reorganize_working_spec (st : AdvancedMemory) (now : Nat) (k : String)
    (b : MemoryBlock) (hWF : WF st) (hk : dictGet st.working k = some b) :
    (now - b.last_access ≤ 600 →
      dictGet (reorganize_memories st now).working k = some b) ∧
    (600 < now - b.last_access →
      dictGet (demotePass now (promotePass now st)).archival k =
        some { b with tier := MemoryTier.archival } ∧
      dictGet (demotePass now (promotePass now st)).working k = none) ∧
    (600 < now - b.last_access → now - b.last_access ≤ 3600 →
      dictGet (reorganize_memories st now).archival k =
        some { b with tier := MemoryTier.archival } ∧
      dictGet (reorganize_memories st now).working k = none) ∧
    (3600 < now - b.last_access →
      dictGet (reorganize_memories st now).overflow k =
        some { b with tier := MemoryTier.overflow } ∧
      dictGet (reorganize_memories st now).archival k = none ∧
      dictGet (reorganize_memories st now).working k = none) := by
  have hkt : dictGet (tierDict st MemoryTier.working) k = some b := by
    rw [tierDict_working]; exact hk
  have hnone := (hWF.2.2.2 k).get_ne_none hkt
  have harchnone : dictGet st.archival k = none := by
    have := hnone MemoryTier.archival (by decide)
    rwa [tierDict_archival] at this
  have hovernone : dictGet st.overflow k = none := by
    have := hnone MemoryTier.overflow (by decide)
    rwa [tierDict_overflow] at this
  have hp1 : TierGetsEq k st (promotePass now st) :=
    promotePass_untouched now st k harchnone
  have hWF1 : WF (promotePass now st) := promotePass_WF now st hWF
  have hk1 : dictGet (promotePass now st).working k = some b := by
    have := hp1 MemoryTier.working
    rw [tierDict_working, tierDict_working] at this
    rw [this]; exact hk
  obtain ⟨hle, hgt⟩ := demotePass_spec now (promotePass now st) k b hWF1 hk1
  have hWF2 : WF (demotePass now (promotePass now st)) :=
    demotePass_WF now _ hWF1
  refine ⟨?_, fun hd => ⟨(hgt hd).1, (hgt hd).2.1⟩, ?_, ?_⟩
  · intro hd
    have hp2 := hle hd
    have harch2 : dictGet (demotePass now (promotePass now st)).archival k = none := by
      have := hp2 MemoryTier.archival
      rw [tierDict_archival, tierDict_archival] at this
      rw [this]
      have := hp1 MemoryTier.archival
      rw [tierDict_archival, tierDict_archival] at this
      rw [this]; exact harchnone
    have hp3 : TierGetsEq k (demotePass now (promotePass now st))
        (archivePass now (demotePass now (promotePass now st))) :=
      archivePass_untouched now _ k harch2
    show dictGet (archivePass now (demotePass now (promotePass now st))).working k = some b
    have := hp3 MemoryTier.working
    rw [tierDict_working, tierDict_working] at this
    rw [this]
    have := hp2 MemoryTier.working
    rw [tierDict_working, tierDict_working] at this
    rw [this]
    exact hk1
  · intro hd1 hd2
    obtain ⟨harch2, hwork2, _⟩ := hgt hd1
    obtain ⟨hle3, _⟩ := archivePass_spec now (demotePass now (promotePass now st))
      k { b with tier := MemoryTier.archival } hWF2 harch2
    have hp3 := hle3 (by simpa using hd2)
    constructor
    · show dictGet (archivePass now (demotePass now (promotePass now st))).archival k =
        some { b with tier := MemoryTier.archival }
      have := hp3 MemoryTier.archival
      rw [tierDict_archival, tierDict_archival] at this
      rw [this]; exact harch2
    · show dictGet (archivePass now (demotePass now (promotePass now st))).working k = none
      have := hp3 MemoryTier.working
      rw [tierDict_working, tierDict_working] at this
      rw [this]; exact hwork2
  · intro hd1
    have hd600 : 600 < now - b.last_access := by omega
    obtain ⟨harch2, hwork2, _⟩ := hgt hd600
    obtain ⟨_, hgt3⟩ := archivePass_spec now (demotePass now (promotePass now st))
      k { b with tier := MemoryTier.archival } hWF2 harch2
    obtain ⟨hover3, harch3, hwork3⟩ := hgt3 (by simpa using hd1)
    refine ⟨hover3, harch3, ?_⟩
    show dictGet (archivePass now (demotePass now (promotePass now st))).working k = none
    rw [hwork3]
    exact hwork2

/-- Full reorganization behaviour for an overflow-tier block: it never
moves. -/
theorem reorganize_overflow_spec (st : AdvancedMemory) (now : Nat) (k : String)
    (b : MemoryBlock) (hWF : WF st) (hk : dictGet st.overflow k = some b) :
    dictGet (reorganize_memories st now).overflow k = some b ∧
    dictGet (reorganize_memories st now).working k = none ∧
    dictGet (reorganize_memories st now).archival k = none := by
  have hkt : dictGet (tierDict st MemoryTier.overflow) k = some b := by
    rw [tierDict_overflow]; exact hk
  have hnone := (hWF.2.2.2 k).get_ne_none hkt
  have hworknone : dictGet st.working k = none := by
    have := hnone MemoryTier.working (by decide)
    rwa [tierDict_working] at this
  have harchnone : dictGet st.archival k = none := by
    have := hnone MemoryTier.archival (by decide)
    rwa [tierDict_archival] at this
  have hp1 : TierGetsEq k st (promotePass now st) :=
    promotePass_untouched now st k harchnone
  have hwork1 : dictGet (promotePass now st).working k = none := by
    have := hp1 MemoryTier.working
    rw [tierDict_working, tierDict_working] at this
    rw [this]; exact hworknone
  have hp2 : TierGetsEq k (promotePass now st)
      (demotePass now (promotePass now st)) :=
    demotePass_untouched now _ k hwork1
  have harch2 : dictGet (demotePass now (promotePass now st)).archival k = none := by
    have h2 := hp2 MemoryTier.archival
    rw [tierDict_archival, tierDict_archival] at h2
    have h1 := hp1 MemoryTier.archival
    rw [tierDict_archival, tierDict_archival] at h1
    rw [h2, h1]; exact harchnone
  have hp3 : TierGetsEq k (demotePass now (promotePass now st))
      (archivePass now (demotePass now (promotePass now st))) :=
    archivePass_untouched now _ k harch2
  have hall : TierGetsEq k st (reorganize_memories st now) :=
    tierGetsEq_trans hp1 (tierGetsEq_trans hp2 hp3)
  refine ⟨?_, ?_, ?_⟩
  · have := hall MemoryTier.overflow
    rw [tierDict_overflow, tierDict_overflow] at this
    rw [this]; exact hk
  · have := hall MemoryTier.working
    rw [tierDict_working, tierDict_working] at this
    rw [this]; exact hworknone
  · have := hall MemoryTier.archival
    rw [tierDict_archival, tierDict_archival] at this
    rw [this]; exact harchnone

/-- The predictor only rewrites the prediction set, never the tier dicts. -/
theorem predict_dicts (s : AdvancedMemory) (k : String) :
    (predict_next_access s k).working = s.working ∧
    (predict_next_access s k).archival = s.archival ∧
    (predict_next_access s k).overflow = s.overflow := by
  simp only [predict_next_access]
  split
  · exact ⟨rfl, rfl, rfl⟩
  · split
    · exact ⟨rfl, rfl, rfl⟩
    · exact ⟨rfl, rfl, rfl⟩

theorem tierDict_eq_of_fields {s s' : AdvancedMemory}
    (hw : s'.working = s.working) (ha : s'.archival = s.archival)
    (ho : s'.overflow = s.overflow) (τ : MemoryTier) :
    tierDict s' τ = tierDict s τ := by
  cases τ with
  | working => exact hw
  | archival => exact ha
  | overflow => exact ho

/-- Equation for the success path of `view` on a specific existing file. -/
theorem view_success_eq (st : AdvancedMemory) (now : Nat) (path : String)
    (t : MemoryTier) (b : MemoryBlock)
    (hroot : ¬(path = "/memories" ∨ path = ""))
    (hf : find_in_tiers st (validate_path path) = some (t, b)) :
    view st now path none =
      (Except.ok (update_access b now).content,
       predict_next_access (recordAccess (setTierDict st t
         (dictInsert (tierDict st t) (validate_path path)
           (update_access b now))) (validate_path path) now)
         (validate_path path)) := by
  simp only [view]
  rw [if_neg hroot, hf]

/-! ## Claim theorems -/

/-- C1: the Placement Policy returns `working` when the key has more than 3
accesses within the last 300 seconds; otherwise `working` when the content
fits 4096 bytes and keeps the aggregate working size within 4096; otherwise
`archival` when the content fits 102400 bytes; otherwise `overflow`.  In
particular a 500-byte create against a working tier holding 4000 bytes is
placed in archival. -/
theorem determine_tier_spec (st : AdvancedMemory) (path content : String)
    (now : Nat) :
    (3 < recentAccessCount st path now →
      determine_tier st path content now = MemoryTier.working) ∧
    (recentAccessCount st path now ≤ 3 → content.length ≤ 4096 →
      workingSize st + content.length ≤ 4096 →
      determine_tier st path content now = MemoryTier.working) ∧
    (recentAccessCount st path now ≤ 3 →
      ¬(content.length ≤ 4096 ∧ workingSize st + content.length ≤ 4096) →
      content.length ≤ 102400 →
      determine_tier st path content now = MemoryTier.archival) ∧
    (recentAccessCount st path now ≤ 3 → 102400 < content.length →
      determine_tier st path content now = MemoryTier.overflow) ∧
    (workingSize st = 4000 → recentAccessCount st (validate_path path) now ≤ 3 →
      content.length = 500 →
      determine_tier st (validate_path path) content now = MemoryTier.archival ∧
      (create st now path content).1 = Except.ok ("Created file: " ++ path ++
        " (tier: " ++ tierValue MemoryTier.archival ++ ")")) := by
  have harch : ∀ (key : String), recentAccessCount st key now ≤ 3 →
      ¬(content.length ≤ 4096 ∧ workingSize st + content.length ≤ 4096) →
      content.length ≤ 102400 →
      determine_tier st key content now = MemoryTier.archival := by
    intro key h1 h2 h3
    unfold determine_tier workingLimit archivalLimit
    rw [if_neg (by omega), if_neg h2, if_pos h3]
  refine ⟨?_, ?_, harch path, ?_, ?_⟩
  · intro h1
    unfold determine_tier
    rw [if_pos h1]
  · intro h1 h2 h3
    unfold determine_tier workingLimit
    rw [if_neg (by omega), if_pos ⟨h2, h3⟩]
  · intro h1 h2
    unfold determine_tier workingLimit archivalLimit
    rw [if_neg (by omega), if_neg (by omega), if_neg (by omega)]
  · intro hws h1 h2
    have hd : determine_tier st (validate_path path) content now =
        MemoryTier.archival := harch (validate_path path) h1 (by omega) (by omega)
    refine ⟨hd, ?_⟩
    simp only [create]
    rw [hd]

/-- C1 witness: the working-overflow-refusal scenario at a concrete state. -/
theorem determine_tier_spec_witness :
    workingSize full4000 = 4000 ∧
    recentAccessCount full4000 (validate_path "/small") 0 ≤ 3 ∧
    text500.length = 500 ∧
    determine_tier full4000 (validate_path "/small") text500 0 =
      MemoryTier.archival ∧
    (create full4000 0 "/small" text500).1 = Except.ok ("Created file: " ++
      "/small" ++ " (tier: " ++ tierValue MemoryTier.archival ++ ")") := by
  have h := (determine_tier_spec full4000 "/small" text500 0).2.2.2.2
    (by decide) (by decide) (by decide)
  exact ⟨by decide, by decide, by decide, h.1, h.2⟩

/-- C10: `create` on an existing key never errors: it returns the success
string naming the decided tier and silently installs a fresh block (access
count 0, `created_at` and `last_access` set to now) into the decided tier's
mapping, replacing any entry for that key in that tier. -/
theorem create_overwrite_spec (st : AdvancedMemory) (now : Nat)
    (path file_text : String) :
    (create st now path file_text).1 =
      Except.ok ("Created file: " ++ path ++ " (tier: " ++
        tierValue (determine_tier st (validate_path path) file_text now) ++ ")") ∧
    ("Error:".data).isPrefixOf ("Created file: " ++ path ++ " (tier: " ++
      tierValue (determine_tier st (validate_path path) file_text now) ++
      ")").data = false ∧
    dictGet (tierDict (create st now path file_text).2
        (determine_tier st (validate_path path) file_text now))
        (validate_path path) =
      some { content := file_text,
             tier := determine_tier st (validate_path path) file_text now,
             access_count := 0, last_access := now, importance_score := halfScore,
             created_at := now, size_bytes := file_text.length } := by
  refine ⟨rfl, ?_, (set_insert_get_self st _ (validate_path path) _).1⟩
  rw [String.data_append, String.data_append, String.data_append,
    String.data_append,
    show ("Error:".data) = 'E' :: "rror:".data from by decide,
    show ("Created file: ".data) = 'C' :: "reated file: ".data from by decide]
  simp only [List.cons_append, List.isPrefixOf_cons₂]
  rw [show (('E' == 'C') : Bool) = false from by decide]
  simp

/-- C2 counterexample: a fresh engine runs `dupTrace` and ends with key `k`
present in both the working and the archival mapping — tier exclusivity is
violated by a create whose placement differs from the occupied tier. -/
theorem tier_exclusivity_cx :
    (dictGet (runCommands initState dupTrace).working "k").isSome = true ∧
    (dictGet (runCommands initState dupTrace).archival "k").isSome = true := by
  decide

/-- C3 counterexample: a block created at time 0 has `last_access = 0`; a
successful `str_replace` at time 50 sets its `last_access` to 50, so writes
do refresh the access time. -/
theorem last_access_write_cx :
    (dictGet aabbState.working "k").map MemoryBlock.last_access = some 0 ∧
    (dictGet ((str_replace aabbState 50 "/k" "a" "c").2).working "k").map
      MemoryBlock.last_access = some 50 := by
  decide

/-- C5 counterexample: after ten commands key `k` sits in overflow; an
ordinary `str_replace` (not a create or rename) then moves it back to the
working tier. -/
theorem overflow_promotion_cx :
    (dictGet overflowMid.overflow "k").isSome = true ∧
    (str_replace overflowMid 5000 "/k" "a" "x").1 =
      Except.ok "Replaced 1 occurrence(s) in /k" ∧
    (dictGet ((str_replace overflowMid 5000 "/k" "a" "x").2).working "k").isSome
      = true ∧
    dictGet ((str_replace overflowMid 5000 "/k" "a" "x").2).overflow "k" = none := by
  decide

/-- C6 counterexample: replacing `"ab"` by `""` (which does not contain
`"ab"`) in content `"aabb"` reports 1 replacement but leaves content `"ab"`,
which still contains one occurrence of the old string. -/
theorem str_replace_reoccurrence_cx :
    pyCount "" "ab" = 0 ∧
    (str_replace aabbState 1 "/k" "ab" "").1 =
      Except.ok "Replaced 1 occurrence(s) in /k" ∧
    (find_in_tiers (str_replace aabbState 1 "/k" "ab" "").2 "k").map
      (fun r => r.2.content) = some "ab" ∧
    pyCount "ab" "ab" = 1 := by
  decide

/-- C8 counterexample: creating a file whose content is the single
two-UTF-8-byte character é stores `size_bytes = 1` (the code-point count),
not the UTF-8 byte length 2. -/
theorem size_bytes_unicode_cx :
    (dictGet ((create initState 0 "/k" "é").2).working "k").map
      MemoryBlock.size_bytes = some 1 ∧
    utf8Len "é" = 2 := by
  decide

/-- Equation for the success path of `str_replace`. -/
theorem str_replace_success_eq (st : AdvancedMemory) (now : Nat)
    (path old_str new_str : String) (t : MemoryTier) (b : MemoryBlock)
    (hf : find_in_tiers st (validate_path path) = some (t, b))
    (hc : ¬ pyCount b.content old_str = 0) :
    str_replace st now path old_str new_str =
      (Except.ok ("Replaced " ++ toString (pyCount b.content old_str) ++
        " occurrence(s) in " ++ path),
       applyMutation st now (validate_path path) t
         { b with content := pyReplace b.content old_str new_str,
                  size_bytes := (pyReplace b.content old_str new_str).length,
                  access_count := b.access_count + 1, last_access := now }) := by
  simp only [str_replace]
  rw [hf]
  simp only [if_neg hc]

/-- Equations for the error paths of `str_replace`. -/
theorem str_replace_error_eq (st : AdvancedMemory) (now : Nat)
    (path old_str new_str : String) :
    (find_in_tiers st (validate_path path) = none →
      str_replace st now path old_str new_str =
        (Except.ok ("Error: File does not exist: " ++ path), st)) ∧
    (∀ t b, find_in_tiers st (validate_path path) = some (t, b) →
      pyCount b.content old_str = 0 →
      str_replace st now path old_str new_str =
        (Except.ok "Error: String not found in file", st)) := by
  constructor
  · intro hf
    simp only [str_replace]
    rw [hf]
  · intro t b hf hc
    simp only [str_replace]
    rw [hf]
    simp only [if_pos hc]

/-- Equation for the success path of `insert` on an existing key. -/
theorem insert_success_eq (st : AdvancedMemory) (now : Nat) (path : String)
    (line : Int) (text : String) (t : MemoryTier) (b : MemoryBlock)
    (hf : find_in_tiers st (validate_path path) = some (t, b))
    (hl : ¬ line < 0) :
    insert st now path line text =
      (Except.ok ("Inserted text at line " ++ toString line ++ " in " ++ path),
       applyMutation st now (validate_path path) t
         { b with
             content := String.intercalate "\n" (pyListInsert line.toNat text
               (pySplitlines b.content ++
                 List.replicate (line.toNat - (pySplitlines b.content).length) "")),
             size_bytes := (String.intercalate "\n" (pyListInsert line.toNat text
               (pySplitlines b.content ++
                 List.replicate (line.toNat - (pySplitlines b.content).length) ""))).length,
             access_count := b.access_count + 1, last_access := now }) := by
  simp only [insert.eq_def]
  rw [hf]
  simp only [if_neg hl]

/-- Equations for the non-success paths of `insert`. -/
theorem insert_other_eq (st : AdvancedMemory) (now : Nat) (path : String)
    (line : Int) (text : String) :
    (find_in_tiers st (validate_path path) = none → line = 0 →
      insert st now path line text = create st now path text) ∧
    (find_in_tiers st (validate_path path) = none → line ≠ 0 →
      insert st now path line text =
        (Except.ok ("Error: Cannot insert at line " ++ toString line ++
          " in non-existent file"), st)) ∧
    (∀ t b, find_in_tiers st (validate_path path) = some (t, b) → line < 0 →
      insert st now path line text =
        (Except.ok "Error: Line number must be non-negative", st)) := by
  refine ⟨?_, ?_, ?_⟩
  · intro hf hl
    simp only [insert.eq_def]
    rw [hf]
    simp only [if_pos hl]
  · intro hf hl
    simp only [insert.eq_def]
    rw [hf]
    simp only [if_neg hl]
  · intro t b hf hl
    simp only [insert.eq_def]
    rw [hf]
    simp only [if_pos hl]

/-- C2 (amended): tier exclusivity holds after any command sequence from a
fresh engine in which every create is *safe* — its key is absent from all
tiers or the Placement Policy keeps it in its current tier.  (An unsafe
create breaks the invariant, see the counterexample.) -/
theorem tier_exclusivity_safe (tr : List (Nat × ToolInput))
    (h : safeTrace initState tr = true) :
    Exclusive (runCommands initState tr) :=
  (safeTrace_WF tr initState WF_initState h).2.2.2

/-- C2 witness: a benign create/view/replace trace keeps exclusivity. -/
theorem tier_exclusivity_safe_witness :
    safeTrace initState benignTrace = true ∧
    Exclusive (runCommands initState benignTrace) :=
  ⟨by decide, tier_exclusivity_safe benignTrace (by decide)⟩

/-- C3 (amended): writes do refresh access metadata.  `create` stamps the
fresh block with `last_access = created_at = now` and `access_count = 0`;
successful `str_replace` and `insert` run `update_access`, setting
`last_access` to now and incrementing `access_count`, exactly as a
successful `view` does — so a frequently written block is not idle in the
Reorganizer's eyes. -/
theorem write_updates_last_access (st : AdvancedMemory) (now : Nat)
    (path old_str new_str text : String) (line : Int) :
    ((∀ τ, dictGet (tierDict st τ) (validate_path path) = none) →
      (find_in_tiers (create st now path text).2 (validate_path path)).map
        (fun r => (r.2.last_access, r.2.access_count, r.2.created_at)) =
        some (now, 0, now)) ∧
    (∀ t b, WF st → find_in_tiers st (validate_path path) = some (t, b) →
      0 < pyCount b.content old_str →
      (find_in_tiers (str_replace st now path old_str new_str).2
        (validate_path path)).map
        (fun r => (r.2.last_access, r.2.access_count)) =
        some (now, b.access_count + 1)) ∧
    (∀ t b, WF st → find_in_tiers st (validate_path path) = some (t, b) →
      ¬ line < 0 →
      (find_in_tiers (insert st now path line text).2
        (validate_path path)).map
        (fun r => (r.2.last_access, r.2.access_count)) =
        some (now, b.access_count + 1)) ∧
    (∀ t b, WF st → ¬(path = "/memories" ∨ path = "") →
      find_in_tiers st (validate_path path) = some (t, b) →
      (find_in_tiers (view st now path none).2 (validate_path path)).map
        (fun r => (r.2.last_access, r.2.access_count)) =
        some (now, b.access_count + 1)) := by
  refine ⟨?_, ?_, ?_, ?_⟩
  · intro hnone
    have h1 := (set_insert_get_self st
      (determine_tier st (validate_path path) text now) (validate_path path)
      { content := text, tier := determine_tier st (validate_path path) text now,
        access_count := 0, last_access := now, importance_score := halfScore,
        created_at := now, size_bytes := text.length }).1
    have h2 : ∀ τ, τ ≠ determine_tier st (validate_path path) text now →
        dictGet (tierDict (create st now path text).2 τ) (validate_path path) =
          none := by
      intro τ hτ
      have := (set_insert_get_self st
        (determine_tier st (validate_path path) text now) (validate_path path)
        { content := text,
          tier := determine_tier st (validate_path path) text now,
          access_count := 0, last_access := now, importance_score := halfScore,
          created_at := now, size_bytes := text.length }).2 τ hτ
      exact this.trans (hnone τ)
    have hfind : find_in_tiers (create st now path text).2 (validate_path path) =
        some (determine_tier st (validate_path path) text now,
          { content := text,
            tier := determine_tier st (validate_path path) text now,
            access_count := 0, last_access := now, importance_score := halfScore,
            created_at := now, size_bytes := text.length }) :=
      find_of_unique h1 h2
    rw [hfind]
    rfl
  · intro t b hWF hf hc
    rw [str_replace_success_eq st now path old_str new_str t b hf (by omega)]
    obtain ⟨t', b', hfind, _, hac, hla, _, _⟩ :=
      applyMutation_find st now (validate_path path) t _ hWF (find_eq_get hf)
    rw [hfind]
    simp [hla, hac]
  · intro t b hWF hf hl
    rw [insert_success_eq st now path line text t b hf hl]
    obtain ⟨t', b', hfind, _, hac, hla, _, _⟩ :=
      applyMutation_find st now (validate_path path) t _ hWF (find_eq_get hf)
    rw [hfind]
    simp [hla, hac]
  · intro t b hWF hroot hf
    rw [view_success_eq st now path t b hroot hf]
    have hget1 := (set_insert_get_self st t (validate_path path)
      (update_access b now)).1
    have hnone1 : ∀ τ, τ ≠ t → dictGet (tierDict (setTierDict st t
        (dictInsert (tierDict st t) (validate_path path) (update_access b now)))
        τ) (validate_path path) = none := by
      intro τ hτ
      rw [(set_insert_get_self st t (validate_path path) (update_access b now)).2
        τ hτ]
      exact (hWF.2.2.2 _).get_ne_none (find_eq_get hf) τ hτ
    have hdicts : ∀ τ, tierDict (predict_next_access (recordAccess
        (setTierDict st t (dictInsert (tierDict st t) (validate_path path)
          (update_access b now))) (validate_path path) now)
        (validate_path path)) τ =
        tierDict (setTierDict st t (dictInsert (tierDict st t)
          (validate_path path) (update_access b now))) τ := by
      intro τ
      exact tierDict_eq_of_fields (predict_dicts _ _).1 (predict_dicts _ _).2.1
        (predict_dicts _ _).2.2 τ
    have hfind : find_in_tiers (predict_next_access (recordAccess
        (setTierDict st t (dictInsert (tierDict st t) (validate_path path)
          (update_access b now))) (validate_path path) now)
        (validate_path path)) (validate_path path) =
        some (t, update_access b now) := by
      refine find_of_unique ?_ (fun τ hτ => ?_)
      · rw [hdicts t]
        exact hget1
      · rw [hdicts τ]
        exact hnone1 τ hτ
    rw [hfind]
    rfl

/-- C3 witness: a `str_replace` at time 50 on a block created at time 0. -/
theorem write_updates_last_access_witness :
    wfB aabbState = true ∧
    find_in_tiers aabbState (validate_path "/k") =
      some (MemoryTier.working, aabbBlock) ∧
    0 < pyCount aabbBlock.content "a" ∧
    (find_in_tiers (str_replace aabbState 50 "/k" "a" "c").2
      (validate_path "/k")).map (fun r => (r.2.last_access, r.2.access_count)) =
      some (50, aabbBlock.access_count + 1) :=
  ⟨by decide, by decide, by decide,
    (write_updates_last_access aabbState 50 "/k" "a" "c" "" 0).2.1
      MemoryTier.working aabbBlock (wfB_sound _ (by decide)) (by decide)
      (by decide)⟩

/-- C4: when the Reorganizer runs, the demotion pass moves every working
block idle for strictly more than 600 seconds to archival, with no size
gate; one idle for 600 seconds or less stays in working through the whole
run.  A demoted block also survives the same run's archive pass whenever it
has been idle for at most 3600 seconds. -/
theorem demotion_threshold_spec (st : AdvancedMemory) (now : Nat) (k : String)
    (b : MemoryBlock) (hWF : WF st) (hk : dictGet st.working k = some b) :
    (now - b.last_access ≤ 600 →
      dictGet (reorganize_memories st now).working k = some b) ∧
    (600 < now - b.last_access →
      dictGet (demotePass now (promotePass now st)).archival k =
        some { b with tier := MemoryTier.archival } ∧
      dictGet (demotePass now (promotePass now st)).working k = none) ∧
    (600 < now - b.last_access → now - b.last_access ≤ 3600 →
      dictGet (reorganize_memories st now).archival k =
        some { b with tier := MemoryTier.archival } ∧
      dictGet (reorganize_memories st now).working k = none) := by
  obtain ⟨h1, h2, h3, _⟩ := reorganize_working_spec st now k b hWF hk
  exact ⟨h1, h2, h3⟩

/-- C4 witness: a block idle for 601 seconds is demoted; idle for 599
seconds it stays. -/
theorem demotion_threshold_spec_witness :
    wfB idleWorking = true ∧
    dictGet idleWorking.working "k" = some idleWorkingBlock ∧
    dictGet (reorganize_memories idleWorking 599).working "k" =
      some idleWorkingBlock ∧
    dictGet (demotePass 601 (promotePass 601 idleWorking)).archival "k" =
      some { idleWorkingBlock with tier := MemoryTier.archival } ∧
    dictGet (reorganize_memories idleWorking 601).archival "k" =
      some { idleWorkingBlock with tier := MemoryTier.archival } ∧
    dictGet (reorganize_memories idleWorking 601).working "k" = none := by
  refine ⟨by decide, by decide, ?_, ?_, ?_, ?_⟩
  · exact (demotion_threshold_spec idleWorking 599 "k" idleWorkingBlock
      (wfB_sound _ (by decide)) (by decide)).1 (by decide)
  · exact ((demotion_threshold_spec idleWorking 601 "k" idleWorkingBlock
      (wfB_sound _ (by decide)) (by decide)).2.1 (by decide)).1
  · exact ((demotion_threshold_spec idleWorking 601 "k" idleWorkingBlock
      (wfB_sound _ (by decide)) (by decide)).2.2 (by decide) (by decide)).1
  · exact ((demotion_threshold_spec idleWorking 601 "k" idleWorkingBlock
      (wfB_sound _ (by decide)) (by decide)).2.2 (by decide) (by decide)).2

/-- C5 (amended): the Reorganizer never moves a block out of overflow —
after a full reorganization an overflow block is exactly where it was.  But
overflow is not terminal for the engine as a whole: `str_replace`/`insert`
re-run the Placement Policy and can promote an overflow block whose new
content qualifies for a warmer tier (see the counterexample). -/
theorem reorganize_overflow_terminal (st : AdvancedMemory) (now : Nat)
    (k : String) (b : MemoryBlock) (hWF : WF st)
    (hk : dictGet st.overflow k = some b) :
    dictGet (reorganize_memories st now).overflow k = some b ∧
    dictGet (reorganize_memories st now).working k = none ∧
    dictGet (reorganize_memories st now).archival k = none :=
  reorganize_overflow_spec st now k b hWF hk

/-- C5 witness: an overflow block is untouched by a reorganization. -/
theorem reorganize_overflow_terminal_witness :
    wfB idleOverflow = true ∧
    dictGet idleOverflow.overflow "k" = some idleOverflowBlock ∧
    dictGet (reorganize_memories idleOverflow 10000).overflow "k" =
      some idleOverflowBlock ∧
    dictGet (reorganize_memories idleOverflow 10000).working "k" = none :=
  ⟨by decide, by decide,
    (reorganize_overflow_terminal idleOverflow 10000 "k" idleOverflowBlock
      (wfB_sound _ (by decide)) (by decide)).1,
    (reorganize_overflow_terminal idleOverflow 10000 "k" idleOverflowBlock
      (wfB_sound _ (by decide)) (by decide)).2.1⟩

/-- C6 (amended): `str_replace` on a missing key or a missing substring
errors without touching state; otherwise it reports exactly
`content.count(old_str)` replacements and the stored content becomes the
left-to-right non-overlapping replacement `content.replace(old_str,
new_str)` — which, at segment junctions, can contain `old_str` again even
when `new_str` does not (see the counterexample). -/
theorem str_replace_spec (st : AdvancedMemory) (now : Nat)
    (path old_str new_str : String) :
    (find_in_tiers st (validate_path path) = none →
      str_replace st now path old_str new_str =
        (Except.ok ("Error: File does not exist: " ++ path), st)) ∧
    (∀ t b, find_in_tiers st (validate_path path) = some (t, b) →
      pyCount b.content old_str = 0 →
      str_replace st now path old_str new_str =
        (Except.ok "Error: String not found in file", st)) ∧
    (∀ t b, WF st → find_in_tiers st (validate_path path) = some (t, b) →
      0 < pyCount b.content old_str →
      (str_replace st now path old_str new_str).1 =
        Except.ok ("Replaced " ++ toString (pyCount b.content old_str) ++
          " occurrence(s) in " ++ path) ∧
      (find_in_tiers (str_replace st now path old_str new_str).2
        (validate_path path)).map (fun r => r.2.content) =
        some (pyReplace b.content old_str new_str)) := by
  refine ⟨(str_replace_error_eq st now path old_str new_str).1,
    (str_replace_error_eq st now path old_str new_str).2, ?_⟩
  intro t b hWF hf hc
  rw [str_replace_success_eq st now path old_str new_str t b hf (by omega)]
  refine ⟨rfl, ?_⟩
  obtain ⟨t', b', hfind, hco, _, _, _, _⟩ :=
    applyMutation_find st now (validate_path path) t _ hWF (find_eq_get hf)
  rw [hfind]
  simp [hco]

/-- C6 witness: a concrete successful replacement with its exact report. -/
theorem str_replace_spec_witness :
    wfB aabbState = true ∧
    find_in_tiers aabbState (validate_path "/k") =
      some (MemoryTier.working, aabbBlock) ∧
    0 < pyCount aabbBlock.content "ab" ∧
    ((str_replace aabbState 7 "/k" "ab" "cc").1 =
      Except.ok ("Replaced " ++ toString (pyCount aabbBlock.content "ab") ++
        " occurrence(s) in " ++ "/k") ∧
    (find_in_tiers (str_replace aabbState 7 "/k" "ab" "cc").2
      (validate_path "/k")).map (fun r => r.2.content) =
      some (pyReplace aabbBlock.content "ab" "cc")) :=
  ⟨by decide, by decide, by decide,
    (str_replace_spec aabbState 7 "/k" "ab" "cc").2.2 MemoryTier.working
      aabbBlock (wfB_sound _ (by decide)) (by decide) (by decide)⟩

/-- C7: `insert` on a missing key behaves as `create` when the line is 0 and
errors otherwise; a negative line errors; otherwise the content is split
into lines, padded with empty lines up to the insertion index, the text is
inserted as one new line at the 0-indexed position, and the lines are
rejoined with newlines. -/
theorem insert_spec (st : AdvancedMemory) (now : Nat) (path : String)
    (line : Int) (text : String) :
    (find_in_tiers st (validate_path path) = none → line = 0 →
      insert st now path line text = create st now path text) ∧
    (find_in_tiers st (validate_path path) = none → line ≠ 0 →
      insert st now path line text =
        (Except.ok ("Error: Cannot insert at line " ++ toString line ++
          " in non-existent file"), st)) ∧
    (∀ t b, find_in_tiers st (validate_path path) = some (t, b) → line < 0 →
      insert st now path line text =
        (Except.ok "Error: Line number must be non-negative", st)) ∧
    (∀ t b, WF st → find_in_tiers st (validate_path path) = some (t, b) →
      ¬ line < 0 →
      (insert st now path line text).1 =
        Except.ok ("Inserted text at line " ++ toString line ++ " in " ++ path) ∧
      (find_in_tiers (insert st now path line text).2
        (validate_path path)).map (fun r => r.2.content) =
        some (String.intercalate "\n" (pyListInsert line.toNat text
          (pySplitlines b.content ++
            List.replicate (line.toNat - (pySplitlines b.content).length) "")))) := by
  obtain ⟨he1, he2, he3⟩ := insert_other_eq st now path line text
  refine ⟨he1, he2, he3, ?_⟩
  intro t b hWF hf hl
  rw [insert_success_eq st now path line text t b hf hl]
  refine ⟨rfl, ?_⟩
  obtain ⟨t', b', hfind, hco, _, _, _, _⟩ :=
    applyMutation_find st now (validate_path path) t _ hWF (find_eq_get hf)
  rw [hfind]
  simp [hco]

/-- C7 witness: inserting `X` at line 5 of the two-line file `A\nB` pads to
five lines and appends, giving `A\nB\n\n\n\nX`; inserting at line 0 gives
`X\nA\nB`. -/
theorem insert_spec_witness :
    wfB twoLineState = true ∧
    find_in_tiers twoLineState (validate_path "/f") =
      some (MemoryTier.working, twoLineBlock) ∧
    ¬ (5 : Int) < 0 ∧
    ((insert twoLineState 3 "/f" 5 "X").1 =
      Except.ok ("Inserted text at line " ++ toString (5 : Int) ++ " in " ++ "/f") ∧
    (find_in_tiers (insert twoLineState 3 "/f" 5 "X").2
      (validate_path "/f")).map (fun r => r.2.content) =
      some (String.intercalate "\n" (pyListInsert (5 : Int).toNat "X"
        (pySplitlines twoLineBlock.content ++
          List.replicate ((5 : Int).toNat - (pySplitlines twoLineBlock.content).length) "")))) ∧
    String.intercalate "\n" (pyListInsert (5 : Int).toNat "X"
      (pySplitlines twoLineBlock.content ++
        List.replicate ((5 : Int).toNat - (pySplitlines twoLineBlock.content).length) ""))
      = "A\nB\n\n\n\nX" ∧
    (find_in_tiers (insert twoLineState 3 "/f" 0 "X").2 "f").map
      (fun r => r.2.content) = some "X\nA\nB" :=
  ⟨by decide, by decide, by decide,
    (insert_spec twoLineState 3 "/f" 5 "X").2.2.2 MemoryTier.working
      twoLineBlock (wfB_sound _ (by decide)) (by decide) (by decide),
    by decide, by decide⟩

/-- Sum of per-character UTF-8 lengths over ASCII-only text equals the
character count. -/
theorem utf8Len_ascii_aux (l : List Char) (h : ∀ c ∈ l, c.toNat < 128) :
    (l.map charUtf8Len).sum = l.length := by
  induction l with
  | nil => rfl
  | cons c rest ih =>
    have hc : charUtf8Len c = 1 := by
      unfold charUtf8Len
      rw [if_pos (h c (List.mem_cons_self c rest))]
    simp only [List.map_cons, List.sum_cons, List.length_cons, hc]
    rw [ih (fun d hd => h d (List.mem_cons_of_mem c hd))]
    omega

/-- C8 (amended): after every successful mutation the stored block satisfies
`size_bytes = len(content)` in Python's sense — the number of code points —
which coincides with the UTF-8 byte length exactly for ASCII content; for
non-ASCII content the two differ (see the counterexample). -/
theorem size_codepoints_spec (st : AdvancedMemory) (now : Nat)
    (path text old_str new_str s : String) (line : Int) :
    ((∀ τ, dictGet (tierDict st τ) (validate_path path) = none) →
      (find_in_tiers (create st now path text).2 (validate_path path)).map
        (fun r => (r.2.size_bytes, r.2.content)) = some (text.length, text)) ∧
    (∀ t b, WF st → find_in_tiers st (validate_path path) = some (t, b) →
      0 < pyCount b.content old_str →
      (find_in_tiers (str_replace st now path old_str new_str).2
        (validate_path path)).map (fun r => (r.2.size_bytes, r.2.content)) =
        some ((pyReplace b.content old_str new_str).length,
          pyReplace b.content old_str new_str)) ∧
    (∀ t b, WF st → find_in_tiers st (validate_path path) = some (t, b) →
      ¬ line < 0 →
      (find_in_tiers (insert st now path line text).2
        (validate_path path)).map (fun r => (r.2.size_bytes, r.2.content)) =
        some ((String.intercalate "\n" (pyListInsert line.toNat text
            (pySplitlines b.content ++
              List.replicate (line.toNat - (pySplitlines b.content).length) ""))).length,
          String.intercalate "\n" (pyListInsert line.toNat text
            (pySplitlines b.content ++
              List.replicate (line.toNat - (pySplitlines b.content).length) "")))) ∧
    ((∀ c ∈ s.data, c.toNat < 128) → utf8Len s = s.length) := by
  refine ⟨?_, ?_, ?_, ?_⟩
  · intro hnone
    have h1 := (set_insert_get_self st
      (determine_tier st (validate_path path) text now) (validate_path path)
      { content := text, tier := determine_tier st (validate_path path) text now,
        access_count := 0, last_access := now, importance_score := halfScore,
        created_at := now, size_bytes := text.length }).1
    have h2 : ∀ τ, τ ≠ determine_tier st (validate_path path) text now →
        dictGet (tierDict (create st now path text).2 τ) (validate_path path) =
          none := by
      intro τ hτ
      have := (set_insert_get_self st
        (determine_tier st (validate_path path) text now) (validate_path path)
        { content := text,
          tier := determine_tier st (validate_path path) text now,
          access_count := 0, last_access := now, importance_score := halfScore,
          created_at := now, size_bytes := text.length }).2 τ hτ
      exact this.trans (hnone τ)
    have hfind : find_in_tiers (create st now path text).2 (validate_path path) =
        some (determine_tier st (validate_path path) text now,
          { content := text,
            tier := determine_tier st (validate_path path) text now,
            access_count := 0, last_access := now, importance_score := halfScore,
            created_at := now, size_bytes := text.length }) :=
      find_of_unique h1 h2
    rw [hfind]
    rfl
  · intro t b hWF hf hc
    rw [str_replace_success_eq st now path old_str new_str t b hf (by omega)]
    obtain ⟨t', b', hfind, hco, _, _, hsz, _⟩ :=
      applyMutation_find st now (validate_path path) t _ hWF (find_eq_get hf)
    rw [hfind]
    simp [hco, hsz]
  · intro t b hWF hf hl
    rw [insert_success_eq st now path line text t b hf hl]
    obtain ⟨t', b', hfind, hco, _, _, hsz, _⟩ :=
      applyMutation_find st now (validate_path path) t _ hWF (find_eq_get hf)
    rw [hfind]
    simp [hco, hsz]
  · intro hascii
    exact utf8Len_ascii_aux s.data hascii

/-- C8 witness: a concrete ASCII mutation where `size_bytes` equals both the
code-point count and the UTF-8 length. -/
theorem size_codepoints_spec_witness :
    wfB aabbState = true ∧
    find_in_tiers aabbState (validate_path "/k") =
      some (MemoryTier.working, aabbBlock) ∧
    0 < pyCount aabbBlock.content "ab" ∧
    (find_in_tiers (str_replace aabbState 9 "/k" "ab" "z").2
      (validate_path "/k")).map (fun r => (r.2.size_bytes, r.2.content)) =
      some ((pyReplace aabbBlock.content "ab" "z").length,
        pyReplace aabbBlock.content "ab" "z") ∧
    utf8Len (pyReplace aabbBlock.content "ab" "z") =
      (pyReplace aabbBlock.content "ab" "z").length :=
  ⟨by decide, by decide, by decide,
    (size_codepoints_spec aabbState 9 "/k" "" "ab" "z" "" 0).2.1
      MemoryTier.working aabbBlock (wfB_sound _ (by decide)) (by decide)
      (by decide),
    by decide⟩

/-- C9: the dispatcher always answers with a string.  Missing or empty
command, unknown commands and missing required fields yield the exact
documented error strings (leaving the state untouched in the first cases),
and an exception escaping a handler (the only handler able to raise is
`view`, on a malformed `view_range`) is caught at this boundary and
rendered as the `"Error: "`-prefixed message. -/
theorem handle_tool_call_errors (st : AdvancedMemory) (now : Nat)
    (inp : ToolInput) :
    (inp.command = none →
      handle_tool_call st now inp = ("Error: No command specified", st)) ∧
    (inp.command = some "" →
      handle_tool_call st now inp = ("Error: No command specified", st)) ∧
    (∀ cmd, inp.command = some cmd → cmd ≠ "" → cmd ≠ "view" → cmd ≠ "create" →
      cmd ≠ "str_replace" → cmd ≠ "insert" → cmd ≠ "delete" → cmd ≠ "rename" →
      handle_tool_call st now inp =
        ("Error: Unknown command '" ++ cmd ++ "'", st)) ∧
    (inp.command = some "create" → falsyStr inp.path = true →
      (handle_tool_call st now inp).1 = "Error: No path specified") ∧
    (inp.command = some "str_replace" →
      (falsyStr inp.path || inp.old_str.isNone || inp.new_str.isNone) = true →
      (handle_tool_call st now inp).1 = "Error: Missing required parameters") ∧
    (inp.command = some "insert" →
      (falsyStr inp.path || inp.insert_line.isNone) = true →
      (handle_tool_call st now inp).1 = "Error: Missing required parameters") ∧
    (inp.command = some "delete" → falsyStr inp.path = true →
      (handle_tool_call st now inp).1 = "Error: No path specified") ∧
    (inp.command = some "rename" →
      (falsyStr inp.old_path || falsyStr inp.new_path) = true →
      (handle_tool_call st now inp).1 = "Error: Both paths required") ∧
    (∀ e st1, inp.command = some "view" →
      handle_view st now inp = (Except.error e, st1) →
      handle_tool_call st now inp = ("Error: " ++ e, st1)) ∧
    (∀ e : String, ("Error:".data).isPrefixOf ("Error: " ++ e).data = true) := by
  refine ⟨?_, ?_, ?_, ?_, ?_, ?_, ?_, ?_, ?_, ?_⟩
  · intro h
    simp only [handle_tool_call, h]
  · intro h
    simp only [handle_tool_call, h]
    rw [if_pos trivial]
  · intro cmd h hne hv hc hs hi hd hr
    simp only [handle_tool_call, h]
    rw [if_neg hne]
    have hdis : dispatchHandler cmd st now inp = none := by
      unfold dispatchHandler
      rw [if_neg hv, if_neg hc, if_neg hs, if_neg hi, if_neg hd, if_neg hr]
    rw [hdis]
  · intro h hp
    simp only [handle_tool_call, h]
    rw [if_neg (by decide)]
    have hdis : dispatchHandler "create" st now inp =
        some (handle_create st now inp) := by
      unfold dispatchHandler
      rw [if_neg (by decide), if_pos rfl]
    have hh : handle_create st now inp =
        (Except.ok "Error: No path specified", st) := by
      unfold handle_create
      rw [if_pos hp]
    rw [hdis, hh]
  · intro h hp
    simp only [handle_tool_call, h]
    rw [if_neg (by decide)]
    have hdis : dispatchHandler "str_replace" st now inp =
        some (handle_str_replace st now inp) := by
      unfold dispatchHandler
      rw [if_neg (by decide), if_neg (by decide), if_pos rfl]
    have hh : handle_str_replace st now inp =
        (Except.ok "Error: Missing required parameters", st) := by
      unfold handle_str_replace
      rw [if_pos hp]
    rw [hdis, hh]
  · intro h hp
    simp only [handle_tool_call, h]
    rw [if_neg (by decide)]
    have hdis : dispatchHandler "insert" st now inp =
        some (handle_insert st now inp) := by
      unfold dispatchHandler
      rw [if_neg (by decide), if_neg (by decide), if_neg (by decide), if_pos rfl]
    have hh : handle_insert st now inp =
        (Except.ok "Error: Missing required parameters", st) := by
      unfold handle_insert
      rw [if_pos hp]
    rw [hdis, hh]
  · intro h hp
    simp only [handle_tool_call, h]
    rw [if_neg (by decide)]
    have hdis : dispatchHandler "delete" st now inp =
        some (handle_delete st now inp) := by
      unfold dispatchHandler
      rw [if_neg (by decide), if_neg (by decide), if_neg (by decide),
        if_neg (by decide), if_pos rfl]
    have hh : handle_delete st now inp =
        (Except.ok "Error: No path specified", st) := by
      unfold handle_delete
      rw [if_pos hp]
    rw [hdis, hh]
  · intro h hp
    simp only [handle_tool_call, h]
    rw [if_neg (by decide)]
    have hdis : dispatchHandler "rename" st now inp =
        some (handle_rename st now inp) := by
      unfold dispatchHandler
      rw [if_neg (by decide), if_neg (by decide), if_neg (by decide),
        if_neg (by decide), if_neg (by decide), if_pos rfl]
    have hh : handle_rename st now inp =
        (Except.ok "Error: Both paths required", st) := by
      unfold handle_rename
      rw [if_pos hp]
    rw [hdis, hh]
  · intro e st1 h hv
    simp only [handle_tool_call, h]
    rw [if_neg (by decide)]
    have hdis : dispatchHandler "view" st now inp =
        some (handle_view st now inp) := by
      unfold dispatchHandler
      rw [if_pos rfl]
    rw [hdis, hv]
  · intro e
    rw [String.data_append,
      show ("Error: ".data) = "Error:".data ++ [' '] from by decide,
      List.append_assoc]
    exact List.isPrefixOf_iff_prefix.mpr (List.prefix_append _ _)

/-- C9 witness: an unrecognized command produces exactly the documented
error string and leaves the state unchanged. -/
theorem handle_tool_call_errors_witness :
    ({ command := some "frobnicate"} : ToolInput).command = some "frobnicate" ∧
    handle_tool_call initState 0 { command := some "frobnicate"} =
      ("Error: Unknown command '" ++ "frobnicate" ++ "'", initState) :=
  ⟨rfl, (handle_tool_call_errors initState 0 _).2.2.1 "frobnicate" rfl
    (by decide) (by decide) (by decide) (by decide) (by decide) (by decide)
    (by decide)⟩
